import Mathlib

/-!
Verification of the wand HTTP router core (willunylabs/wand).

Shallow embedding of the Go sources under src/: Go strings are byte lists
(`GoStr := List Nat`, each element < 256 in practice), Go maps are association
lists (Go map iteration order is unspecified, but every map-iterating function
modelled here produces an iteration-order-independent result: bitmask unions
plus a sorted, deduplicated custom list), and in-place pointer mutation is
modelled by returning the updated structure alongside the error.

Sources embedded: src/router/router.go, src/router/trie.go,
src/router/serve.go, src/router/frozen.go, src/logger/ringbuffer.go and the
access-log middleware (src/unnamed/part_008).
-/

namespace Wand

/-- A Go string, as its list of bytes. -/
abbrev GoStr := List Nat

/-- Converts an ASCII Lean string literal to its Go byte-list representation
(every literal used below is pure ASCII, so code point = byte). -/
def gs (s : String) : GoStr := s.data.map Char.toNat

/-- Byte-range slice p[a:b] of a Go string. -/
def goSub (p : GoStr) (a b : Nat) : GoStr := (p.drop a).take (b - a)

/-- Suffix slice p[a:] of a Go string. -/
def goSuffix (p : GoStr) (a : Nat) : GoStr := p.drop a

/-- Lowercases one ASCII byte, mirroring the per-byte step of lowerASCII in
src/router/router.go. -/
def lowerByte (c : Nat) : Nat := if 65 ≤ c ∧ c ≤ 90 then c + 32 else c

/-- Tests whether a byte is an ASCII uppercase letter. -/
def isUpperByte (c : Nat) : Bool := decide (65 ≤ c ∧ c ≤ 90)

/-- lowerASCII from src/router/router.go: scans for an uppercase ASCII byte
first and returns the string unchanged when none is present, otherwise
rebuilds the string with every A-Z byte lowered. -/
def lowerASCII (s : GoStr) : GoStr :=
  if s.any isUpperByte then s.map lowerByte else s

/-- alternatePath from src/router/serve.go: toggles the trailing slash,
returning none for the empty path and the root path. -/
def alternatePath (p : GoStr) : Option GoStr :=
  if p = [] ∨ p = gs "/" then none
  else if p.getLast? = some 47 then some (p.dropLast)
  else some (p ++ [47])

/-- Joins byte-list segments with a separator byte (strings.Join). -/
def joinSep (sep : Nat) : List GoStr → GoStr
  | [] => []
  | [p] => p
  | p :: rest => p ++ sep :: joinSep sep rest

/-- Segment-level core of Go path.Clean for rooted paths: processes the
split segments, dropping "." and resolving ".." against the stack. -/
def cleanSegs : List GoStr → List GoStr
  | [] => []
  | p :: rest =>
    let tail := cleanSegs rest
    if p = gs "." then tail
    else p :: tail

/-- Resolves ".." segments left-to-right against an output stack, as
path.Clean does for rooted paths (a ".." at the root is dropped). -/
def resolveDotDot (acc : List GoStr) : List GoStr → List GoStr
  | [] => acc.reverse
  | p :: rest =>
    if p = gs ".." then resolveDotDot acc.tail rest
    else resolveDotDot (p :: acc) rest

/-- Splits a byte string on the slash byte, keeping only non-empty chunks. -/
def splitSlash (p : GoStr) : List GoStr :=
  ((p.splitOn 47).filter (· ≠ []))

/-- cleanPath from src/router/router.go: empty becomes "/", a leading slash
is ensured, runs of slashes collapse, "." and ".." resolve per POSIX, and a
trailing slash of the input survives when the cleaned form is not "/".
Implemented segmentwise; on rooted inputs this agrees with Go path.Clean. -/
def cleanPath (p : GoStr) : GoStr :=
  if p = [] then gs "/"
  else
    let q := if p.headI = 47 then p else 47 :: p
    let segs := resolveDotDot [] (cleanSegs (splitSlash q))
    let cp := if segs = [] then gs "/" else 47 :: joinSep 47 segs
    if cp.length > 1 ∧ q.getLast? = some 47 ∧ cp.getLast? ≠ some 47 then
      cp ++ [47]
    else cp

/-! ### Segment parser (Router.getPartsWithRaw, src/router/router.go) -/

/-- MaxPathLength from src/router/router.go. -/
def MaxPathLength : Nat := 4096

/-- MaxDepth from src/router/trie.go. -/
def MaxDepth : Nat := 50

/-- pathSegments from src/router/router.go: the original path (for parameter
slicing), the normalized match path, the split segments, and their start
offsets with the trailing sentinel. -/
structure PathSegments where
  path : GoStr
  matchPath : GoStr
  parts : List GoStr
  indices : List Nat
  deriving Repr, DecidableEq

/-- Tests a byte against the NUL/CR/LF safety check of getPartsWithRaw. -/
def isBadByte (c : Nat) : Bool := c = 0 ∨ c = 13 ∨ c = 10

/-- Scan loop of getPartsWithRaw: walks the remaining bytes with the current
absolute position i and segment start, accumulating segments and offsets;
at the end it pushes the trailing segment and the sentinel offset. -/
def getPartsScan (path : GoStr) : GoStr → Nat → Nat → List GoStr → List Nat →
    Option (List GoStr × List Nat)
  | [], i, start, parts, indices =>
    let _ := i
    let n := path.length
    if start < n then
      some (parts ++ [goSub path start n], indices ++ [start, n])
    else
      some (parts, indices ++ [n])
  | c :: rest, i, start, parts, indices =>
    if isBadByte c then none
    else if c = 47 then
      if start < i then
        getPartsScan path rest (i + 1) (i + 1)
          (parts ++ [goSub path start i]) (indices ++ [start])
      else
        getPartsScan path rest (i + 1) (i + 1) parts indices
    else
      getPartsScan path rest (i + 1) start parts indices

/-- getPartsWithRaw from src/router/router.go: splits the match path into
segments while rejecting NUL/CR/LF, recording start offsets plus the length
sentinel, and stores the raw path for parameter extraction. -/
def getPartsWithRaw (path raw : GoStr) : Option PathSegments :=
  match getPartsScan path path 0 0 [] [] with
  | none => none
  | some (parts, indices) =>
    some { path := raw, matchPath := path, parts := parts, indices := indices }

/-- getParts from src/router/router.go. -/
def getParts (path : GoStr) : Option PathSegments := getPartsWithRaw path path

/-! ### Trie (src/router/trie.go)

Static children are modelled as an association list with replace-or-append
update; the Go source keeps a small vector below 5 entries and upgrades to a
hash map beyond, but since keys are unique both organisations realise the
same get/set mapping. Handlers are opaque identifiers (Nat). In-place pointer
mutation of insert is modelled by returning the updated node together with
the error: the returned node reflects every mutation performed before a
failure, exactly as the Go heap would. -/

/-- Registration error kinds of src/router (one per distinct error site). -/
inductive ErrKind where
  | nilHandler
  | invalidMethod
  | nonCanonical
  | patternTooLong
  | invalidPath
  | routeTooDeep
  | missingParamName
  | wildcardNotLast
  | duplicateParamName
  | paramNameConflict
  | wildNameConflict
  | paramWildcardConflict
  | duplicateRoute
  | nilMiddleware
  | middlewareNilHandler
  deriving Repr, DecidableEq

/-- Params from src/router/trie.go: parallel key/value slices. -/
structure Params where
  Keys : List GoStr
  Values : List GoStr
  deriving Repr, DecidableEq

/-- Params.Add from src/router/trie.go. -/
def Params.Add (p : Params) (key value : GoStr) : Params :=
  { Keys := p.Keys ++ [key], Values := p.Values ++ [value] }

/-- Truncation of both slices to a snapshot length (the backtracking step of
node.search). -/
def Params.truncate (p : Params) (snapshot : Nat) : Params :=
  { Keys := p.Keys.take snapshot, Values := p.Values.take snapshot }

/-- Linear key scan over parallel key/value lists. -/
def paramsGetAux (key : GoStr) : List GoStr → List GoStr → Option GoStr
  | k :: ks, v :: vs => if k = key then some v else paramsGetAux key ks vs
  | _, _ => none

/-- Params.Get from src/router/trie.go (linear scan over the keys). -/
def Params.Get (p : Params) (key : GoStr) : Option GoStr :=
  paramsGetAux key p.Keys p.Values

/-- Trie node from src/router/trie.go: the full leaf pattern, this node's
segment text, static children keyed by literal, at most one parameter child,
at most one wildcard child, the leaf handler, and the leaf-only hasParams
flag. -/
inductive Node where
  | mk (pattern : GoStr) (part : GoStr) (staticChildren : List (GoStr × Node))
      (paramChild : Option Node) (wildChild : Option Node)
      (handler : Option Nat) (hasParams : Bool)

def Node.pattern : Node → GoStr | .mk v _ _ _ _ _ _ => v
def Node.part : Node → GoStr | .mk _ v _ _ _ _ _ => v
def Node.staticChildren : Node → List (GoStr × Node) | .mk _ _ v _ _ _ _ => v
def Node.paramChild : Node → Option Node | .mk _ _ _ v _ _ _ => v
def Node.wildChild : Node → Option Node | .mk _ _ _ _ v _ _ => v
def Node.handler : Node → Option Nat | .mk _ _ _ _ _ v _ => v
def Node.hasParams : Node → Bool | .mk _ _ _ _ _ _ v => v

/-- Fresh interior node (Go &node\x7bpart: part\x7d). -/
def Node.fresh (part : GoStr) : Node := .mk [] part [] none none none false

/-- staticChildren.get: unique-key association lookup. -/
def childGet (l : List (GoStr × Node)) (part : GoStr) : Option Node :=
  match l with
  | [] => none
  | (k, n) :: rest => if k = part then some n else childGet rest part

/-- staticChildren.set: replace the existing entry or append a new one. -/
def childSet (l : List (GoStr × Node)) (part : GoStr) (child : Node) :
    List (GoStr × Node) :=
  match l with
  | [] => [(part, child)]
  | (k, n) :: rest =>
    if k = part then (k, child) :: rest else (k, n) :: childSet rest part child

/-- matchChildForInsert from src/router/trie.go. -/
def Node.matchChildForInsert (n : Node) (part : GoStr) : Option Node :=
  if part = [] then none
  else if part.headI = 58 then n.paramChild
  else if part.headI = 42 then n.wildChild
  else childGet n.staticChildren part

/-- sanitizePart from src/router/trie.go: rejects the empty part and parts
containing a slash or NUL/CR/LF. -/
def sanitizePart (part : GoStr) : Option ErrKind :=
  if part = [] then some .invalidPath
  else if part.any (fun c => c = 47 ∨ c = 0 ∨ c = 13 ∨ c = 10) then
    some .invalidPath
  else none

/-- Replaces the child slot selected by a part kind (static, param or wild)
with an updated child node, modelling Go's in-place child mutation. -/
def Node.putChild (n : Node) (part : GoStr) (child : Node) : Node :=
  match n with
  | .mk pat pt sc pc wc h hp =>
    if part.headI = 58 then .mk pat pt sc (some child) wc h hp
    else if part.headI = 42 then .mk pat pt sc pc (some child) h hp
    else .mk pat pt (childSet sc part child) pc wc h hp

/-- node.insert from src/router/trie.go, with the remaining segments as an
explicit suffix list (rest = parts.drop height). The returned node carries
every mutation made before a failure. -/
def Node.insert (n : Node) (pattern : GoStr) (rest : List GoStr)
    (height : Nat) (handler : Option Nat) (routeHasParams : Bool) :
    Node × Option ErrKind :=
  if height > MaxDepth then (n, some .routeTooDeep)
  else
    match rest with
    | [] =>
      if n.pattern ≠ [] then (n, some .duplicateRoute)
      else
        match handler with
        | none => (n, some .nilHandler)
        | some h =>
          match n with
          | .mk _ pt sc pc wc _ _ =>
            (.mk pattern pt sc pc wc (some h) routeHasParams, none)
    | part :: restTail =>
      let rhp := routeHasParams ∨ (part ≠ [] ∧ (part.headI = 58 ∨ part.headI = 42))
      if part ≠ [] ∧ part.headI = 42 ∧ restTail ≠ [] then
        (n, some .wildcardNotLast)
      else if part ≠ [] ∧ part.headI = 42 ∧ part.length = 1 then
        (n, some .missingParamName)
      else if part ≠ [] ∧ part.headI = 58 ∧ part.length = 1 then
        (n, some .missingParamName)
      else
        match sanitizePart part with
        | some e => (n, some e)
        | none =>
          match n.matchChildForInsert part with
          | some child =>
            if part ≠ [] ∧ part.headI = 58 ∧ child.part ≠ part then
              (n, some .paramNameConflict)
            else if part ≠ [] ∧ part.headI = 42 ∧ child.part ≠ part then
              (n, some .wildNameConflict)
            else
              let r := child.insert pattern restTail (height + 1) handler rhp
              (n.putChild part r.1, r.2)
          | none =>
            if part.headI = 58 ∧ (n.wildChild).isSome then
              (n, some .paramWildcardConflict)
            else if part.headI = 42 ∧ (n.paramChild).isSome then
              (n, some .paramWildcardConflict)
            else
              let r := (Node.fresh part).insert pattern restTail (height + 1)
                handler rhp
              (n.putChild part r.1, r.2)

/-- node.search from src/router/trie.go, with explicit fuel for the call
stack; the Go recursion is bounded by the trie depth, which registration
caps at MaxDepth, so any fuel of at least MaxDepth + 4 is never exhausted.
Returns the matched node and the (optionally threaded) parameter store,
mirroring the in-place parameter mutation and backtracking of the source.
The body's two blocks — the termination/wildcard base case and the
static → param → wildcard cascade — are restated as the named functions
searchBase and searchCascade below, equal to the blocks definitionally. -/
def Node.search (fuel : Nat) (n : Node) (segs : PathSegments) (height : Nat)
    (params : Option Params) : Option Node × Option Params :=
  match fuel with
  | 0 => (none, params)
  | fuel + 1 =>
    if height > MaxDepth then (none, params)
    else if height = segs.parts.length ∨ (n.part ≠ [] ∧ n.part.headI = 42) then
      -- base case block (searchBase)
      if n.pattern = [] then
        if height = segs.parts.length then
          match n.wildChild with
          | some w => w.search fuel segs height params
          | none => (none, params)
        else (none, params)
      else
        match params with
        | some ps =>
          if n.part ≠ [] ∧ n.part.headI = 42 then
            let start := segs.indices.getD height 0
            let start :=
              if start < segs.path.length ∧ segs.path.getD start 0 = 47 then
                start + 1
              else start
            (some n, some (ps.Add (n.part.tail) (goSuffix segs.path start)))
          else (some n, some ps)
        | none => (some n, none)
    else
      -- cascade block (searchCascade)
      let part := segs.parts.getD height []
      let stat :=
        match childGet n.staticChildren part with
        | some child => child.search fuel segs (height + 1) params
        | none => (none, params)
      if stat.1.isSome then stat
      else
        let params := stat.2
        let par :=
          match n.paramChild with
          | some child =>
            match params with
            | some ps =>
              let snapshot := ps.Keys.length
              let start := segs.indices.getD height 0
              let stop := start + part.length
              let value :=
                if stop ≤ segs.path.length then goSub segs.path start stop
                else part
              let r := child.search fuel segs (height + 1)
                (some (ps.Add (child.part.tail) value))
              if r.1.isSome then r
              else
                match r.2 with
                | some ps1 => (none, some (ps1.truncate snapshot))
                | none => (none, none)
            | none => child.search fuel segs (height + 1) none
          | none => (none, params)
        if par.1.isSome then par
        else
          let params := par.2
          match n.wildChild with
          | some child => child.search fuel segs height params
          | none => (none, params)

/-- Base-case block of node.search (path exhausted or wildcard node),
stated as a standalone function. -/
def searchBase (fuel : Nat) (n : Node) (segs : PathSegments) (height : Nat)
    (params : Option Params) : Option Node × Option Params :=
  if n.pattern = [] then
    if height = segs.parts.length then
      match n.wildChild with
      | some w => w.search fuel segs height params
      | none => (none, params)
    else (none, params)
  else
    match params with
    | some ps =>
      if n.part ≠ [] ∧ n.part.headI = 42 then
        let start := segs.indices.getD height 0
        let start :=
          if start < segs.path.length ∧ segs.path.getD start 0 = 47 then
            start + 1
          else start
        (some n, some (ps.Add (n.part.tail) (goSuffix segs.path start)))
      else (some n, some ps)
    | none => (some n, none)

/-- Cascade block of node.search (static → param → wildcard priority with
snapshot rollback), stated as a standalone function. -/
def searchCascade (fuel : Nat) (n : Node) (segs : PathSegments) (height : Nat)
    (params : Option Params) : Option Node × Option Params :=
  let part := segs.parts.getD height []
  let stat :=
    match childGet n.staticChildren part with
    | some child => child.search fuel segs (height + 1) params
    | none => (none, params)
  if stat.1.isSome then stat
  else
    let params := stat.2
    let par :=
      match n.paramChild with
      | some child =>
        match params with
        | some ps =>
          let snapshot := ps.Keys.length
          let start := segs.indices.getD height 0
          let stop := start + part.length
          let value :=
            if stop ≤ segs.path.length then goSub segs.path start stop
            else part
          let r := child.search fuel segs (height + 1)
            (some (ps.Add (child.part.tail) value))
          if r.1.isSome then r
          else
            match r.2 with
            | some ps1 => (none, some (ps1.truncate snapshot))
            | none => (none, none)
        | none => child.search fuel segs (height + 1) none
      | none => (none, params)
    if par.1.isSome then par
    else
      let params := par.2
      match n.wildChild with
      | some child => child.search fuel segs height params
      | none => (none, params)

/-- One step of node.search is the depth guard, then the base-case block on
termination or a wildcard node, then the cascade block. -/
theorem search_succ (fuel : Nat) (n : Node) (segs : PathSegments)
    (height : Nat) (params : Option Params) :
    Node.search (fuel + 1) n segs height params =
      if height > MaxDepth then (none, params)
      else if height = segs.parts.length ∨
          (n.part ≠ [] ∧ n.part.headI = 42) then
        searchBase fuel n segs height params
      else searchCascade fuel n segs height params := rfl

/-- Fuel that the bounded trie depth can never exhaust. -/
def searchFuel : Nat := MaxDepth + 4

/-- validateParamNames from src/router/router.go, processing the segment
list with its index and the set of parameter names seen so far. -/
def validateParamNamesAux (pattern : GoStr) (seen : List GoStr) :
    List GoStr → Nat → Nat → Option ErrKind
  | [], _, _ => none
  | part :: rest, i, total =>
    let _ := pattern
    if part = [] then validateParamNamesAux pattern seen rest (i + 1) total
    else if part.headI = 42 ∧ i ≠ total - 1 then some .wildcardNotLast
    else if part.headI = 58 ∨ part.headI = 42 then
      let name := part.tail
      if name = [] then some .missingParamName
      else if name ∈ seen then some .duplicateParamName
      else validateParamNamesAux pattern (name :: seen) rest (i + 1) total
    else validateParamNamesAux pattern seen rest (i + 1) total

/-- validateParamNames from src/router/router.go. -/
def validateParamNames (parts : List GoStr) (pattern : GoStr) :
    Option ErrKind :=
  validateParamNamesAux pattern [] parts 0 parts.length

/-- isValidMethod from src/router/router.go: non-empty, no byte ≤ space and
no DEL. -/
def isValidMethod (method : GoStr) : Bool :=
  method ≠ [] ∧ method.all (fun c => 32 < c ∧ c ≠ 127)

/-! ### Allow-header machinery (src/router/router.go) -/

def mGET : GoStr := gs "GET"
def mHEAD : GoStr := gs "HEAD"
def mPOST : GoStr := gs "POST"
def mPUT : GoStr := gs "PUT"
def mPATCH : GoStr := gs "PATCH"
def mDELETE : GoStr := gs "DELETE"
def mOPTIONS : GoStr := gs "OPTIONS"

def allowMethodGet : Nat := 1
def allowMethodHead : Nat := 2
def allowMethodPost : Nat := 4
def allowMethodPut : Nat := 8
def allowMethodPatch : Nat := 16
def allowMethodDelete : Nat := 32
def allowMethodOptions : Nat := 64

/-- methodOrder from src/router/router.go (the fixed canonical order). -/
def methodOrder : List (GoStr × Nat) :=
  [(mGET, allowMethodGet), (mHEAD, allowMethodHead), (mPOST, allowMethodPost),
   (mPUT, allowMethodPut), (mPATCH, allowMethodPatch),
   (mDELETE, allowMethodDelete), (mOPTIONS, allowMethodOptions)]

/-- Association lookup for byte-list keys (models Go map access). -/
def alookup {α : Type} (l : List (GoStr × α)) (k : GoStr) : Option α :=
  match l with
  | [] => none
  | (k1, v) :: rest => if k1 = k then some v else alookup rest k

/-- Association update: replace the existing entry or append (models Go map
assignment). -/
def aset {α : Type} (l : List (GoStr × α)) (k : GoStr) (v : α) :
    List (GoStr × α) :=
  match l with
  | [] => [(k, v)]
  | (k1, v1) :: rest =>
    if k1 = k then (k1, v) :: rest else (k1, v1) :: aset rest k v

/-- standardMethodBits lookup from src/router/router.go. -/
def standardMethodBits (method : GoStr) : Option Nat :=
  alookup methodOrder method

/-- appendCustomMethod from src/router/router.go: append with dedup. -/
def appendCustomMethod (custom : List GoStr) (method : GoStr) : List GoStr :=
  if method ∈ custom then custom else custom ++ [method]

/-- addAllowedMethod from src/router/router.go. -/
def addAllowedMethod (method : GoStr) (bits : Nat) (custom : List GoStr) :
    Nat × List GoStr :=
  match standardMethodBits method with
  | some bit => (bits ||| bit, custom)
  | none => (bits, appendCustomMethod custom method)

/-- Lexicographic byte-order comparison (Go sort.Strings order). -/
def lexLe : GoStr → GoStr → Bool
  | [], _ => true
  | _ :: _, [] => false
  | a :: as, b :: bs => if a < b then true else if a > b then false else lexLe as bs

/-- Insertion sort in lexicographic byte order (sort.Strings). -/
def sortStrings (l : List GoStr) : List GoStr :=
  l.foldr (fun s acc => insertLex s acc) []
where
  insertLex (s : GoStr) : List GoStr → List GoStr
    | [] => [s]
    | t :: rest => if lexLe s t then s :: t :: rest else t :: insertLex s rest

/-- buildAllowHeader from src/router/router.go: the seven standard methods in
canonical order, then the sorted custom methods, joined with a comma and a
space. -/
def buildAllowHeader (bits : Nat) (custom : List GoStr) : GoStr :=
  if bits = 0 ∧ custom = [] then []
  else
    let std := (methodOrder.filter (fun e => bits &&& e.2 ≠ 0)).map Prod.fst
    joinSep2 (std ++ sortStrings custom)
where
  /-- Comma-space join of the collected method names. -/
  joinSep2 : List GoStr → GoStr
    | [] => []
    | [m] => m
    | m :: rest => m ++ (gs ", ") ++ joinSep2 rest

/-! ### Route table and registration (src/router/router.go) -/

/-- routeTable from src/router/router.go: per-method trie roots, per-method
static pattern maps, the precomputed static Allow cache, the per-method
has-parameters flags, and the anyParams / hasTrailing fast-path flags. -/
structure RTable where
  roots : List (GoStr × Node)
  static : List (GoStr × List (GoStr × Nat))
  staticAllow : List (GoStr × GoStr)
  hasParams : List (GoStr × Bool)
  anyParams : Bool
  hasTrailing : Bool

/-- Empty route table (NewRouter / newRouteTable). -/
def RTable.empty : RTable :=
  { roots := [], static := [], staticAllow := [], hasParams := [],
    anyParams := false, hasTrailing := false }

/-- buildStaticAllowHeader from src/router/router.go: union of the methods
whose static map holds the exact path, with the HEAD-from-GET and OPTIONS
completions. -/
def buildStaticAllowHeader (static : List (GoStr × List (GoStr × Nat)))
    (path : GoStr) : Option GoStr :=
  let bc := static.foldl
    (fun (bc : Nat × List GoStr) e =>
      match alookup e.2 path with
      | some _ => addAllowedMethod e.1 bc.1 bc.2
      | none => bc) (0, [])
  if bc.1 = 0 ∧ bc.2 = [] then none
  else
    let bits := if bc.1 &&& allowMethodGet ≠ 0 then bc.1 ||| allowMethodHead else bc.1
    some (buildAllowHeader (bits ||| allowMethodOptions) bc.2)

/-- Looks up the per-method hasParams flag (missing key reads false, like a
Go map). -/
def RTable.hasParamsFor (t : RTable) (method : GoStr) : Bool :=
  (alookup t.hasParams method).getD false

/-! ### Dispatch (src/router/router.go and src/router/serve.go)

The observable response at the router boundary. Responses carrying a handler
identifier (and the captured parameter store, when the route is parametric)
stand for running that handler; identical handler and parameters produce an
identical status, body and headers. Redirect locations here are the plain
paths passed to http.Redirect (ASCII paths round-trip unchanged through
url.URL.String). -/
inductive Resp where
  | handlerRun (id : Nat) (params : Option Params)
  | mna (allow : GoStr)
  | mnaCustom (id : Nat) (allow : GoStr)
  | optionsOk (allow : GoStr)
  | redirect (code : Nat) (location : GoStr)
  | notFound
  | notFoundCustom (id : Nat)
  | uriTooLong
  deriving Repr, DecidableEq

/-- Dispatch-relevant router configuration (the flags and overrides shared by
Router and FrozenRouter). -/
structure DispatchCfg where
  StrictSlash : Bool
  MethodNotAllowed : Option Nat
  NotFound : Option Nat
  deriving Repr, DecidableEq

/-- Preprocessed request context (routeContext from src/router/serve.go). -/
structure RouteContext where
  method : GoStr
  matchPath : GoStr
  paramPath : GoStr
  deriving Repr, DecidableEq

/-- Redirect status selection of redirectToPath: 301 for GET and HEAD, 308
otherwise. -/
def redirCode (method : GoStr) : Nat :=
  if method = mGET ∨ method = mHEAD then 301 else 308

/-- allowedMethodsInTable from src/router/router.go: the static Allow cache
when the table is purely static, otherwise the union over static maps and
parametric tries, completed with HEAD-from-GET and OPTIONS. -/
def allowedMethodsInTable (table : RTable) (matchPath : GoStr) : Option GoStr :=
  if ¬table.anyParams then alookup table.staticAllow matchPath
  else
    let bc := table.static.foldl
      (fun (bc : Nat × List GoStr) e =>
        match alookup e.2 matchPath with
        | some _ => addAllowedMethod e.1 bc.1 bc.2
        | none => bc) (0, [])
    let needTrie := table.hasParams.any
      (fun e => e.2 ∧ (alookup table.roots e.1).isSome)
    let segsOpt :=
      if needTrie then
        match getParts matchPath with
        | none => none
        | some segs =>
          if segs.parts.length > MaxDepth then none else some (some segs)
      else some none
    match segsOpt with
    | none => none
    | some segsMaybe =>
      let bc := table.hasParams.foldl
        (fun (bc : Nat × List GoStr) e =>
          if e.2 then
            match alookup table.roots e.1 with
            | some root =>
              match segsMaybe with
              | some segs =>
                if (root.search searchFuel segs 0 none).1.isSome then
                  addAllowedMethod e.1 bc.1 bc.2
                else bc
              | none => bc
            | none => bc
          else bc) bc
      if bc.1 = 0 ∧ bc.2 = [] then none
      else
        let bits :=
          if bc.1 &&& allowMethodGet ≠ 0 then bc.1 ||| allowMethodHead else bc.1
        some (buildAllowHeader (bits ||| allowMethodOptions) bc.2)

/-- serveMethodInTable from src/router/router.go: exact static-map hit,
hasParams fast-miss, then the trie search (a second search collects the
parameters for parametric leaves). -/
def serveMethodInTable (table : RTable) (method matchPath rawPath : GoStr) :
    Option Resp :=
  let tryTrie : Option Resp :=
    match getPartsWithRaw matchPath rawPath with
    | none => none
    | some segs =>
      if segs.parts.length > MaxDepth then none
      else
        match alookup table.roots method with
        | none => none
        | some root =>
          match (root.search searchFuel segs 0 none).1 with
          | some node =>
            match node.handler with
            | some h =>
              if ¬node.hasParams then some (.handlerRun h none)
              else
                let ps := (root.search searchFuel segs 0 (some ⟨[], []⟩)).2
                some (.handlerRun h ps)
            | none => none
          | none => none
  match alookup table.static method with
  | some m =>
    match alookup m matchPath with
    | some h => some (.handlerRun h none)
    | none => if ¬table.hasParamsFor method then none else tryTrie
  | none => if ¬table.hasParamsFor method then none else tryTrie

/-- serveInTable from src/router/router.go: HEAD tries HEAD then falls back
to GET; any other method is tried directly. -/
def serveInTable (table : RTable) (method matchPath rawPath : GoStr) :
    Option Resp :=
  if method = mHEAD then
    match serveMethodInTable table mHEAD matchPath rawPath with
    | some r => some r
    | none => serveMethodInTable table mGET matchPath rawPath
  else serveMethodInTable table method matchPath rawPath

/-- respondMethodNotAllowed from src/router/serve.go: OPTIONS gets 200 with
the Allow header and no body; otherwise the MethodNotAllowed override runs,
or a bare 405 with Allow is written. -/
def respondMethodNotAllowed (method : GoStr) (allow : GoStr)
    (override : Option Nat) : Resp :=
  if method = mOPTIONS then .optionsOk allow
  else
    match override with
    | some id => .mnaCustom id allow
    | none => .mna allow

/-- Router.tryAlternateSlashInTable from src/router/router.go, including the
hasTrailing fast-skip. -/
def tryAlternateSlashInTable (cfg : DispatchCfg) (table : RTable)
    (ctx : RouteContext) : Option Resp :=
  if ctx.matchPath.length > 1 ∧ ctx.matchPath.getLast? ≠ some 47 ∧
      ¬table.hasTrailing then none
  else
    match alternatePath ctx.matchPath with
    | none => none
    | some altMatch =>
      if altMatch = ctx.matchPath then none
      else if cfg.StrictSlash then
        match allowedMethodsInTable table altMatch with
        | some _ =>
          match alternatePath ctx.paramPath with
          | some altRedirect =>
            if altRedirect ≠ [] then
              some (.redirect (redirCode ctx.method) altRedirect)
            else none
          | none => none
        | none => none
      else
        match alternatePath ctx.paramPath with
        | some altParam => serveInTable table ctx.method altMatch altParam
        | none => serveInTable table ctx.method altMatch []

/-- Router.handleMethodNotAllowedInTable from src/router/router.go,
including the hasTrailing fast-skip of the non-strict branch. -/
def handleMethodNotAllowedInTable (cfg : DispatchCfg) (table : RTable)
    (ctx : RouteContext) : Option Resp :=
  match allowedMethodsInTable table ctx.matchPath with
  | some allow =>
    some (respondMethodNotAllowed ctx.method allow cfg.MethodNotAllowed)
  | none =>
    if ¬cfg.StrictSlash then
      if ctx.matchPath.length > 1 ∧ ctx.matchPath.getLast? ≠ some 47 ∧
          ¬table.hasTrailing then none
      else
        match alternatePath ctx.matchPath with
        | some altMatch =>
          match allowedMethodsInTable table altMatch with
          | some allow =>
            some (respondMethodNotAllowed ctx.method allow cfg.MethodNotAllowed)
          | none => none
        | none => none
    else none

/-- The serve, alternate-slash, method-not-allowed pipeline that
Router.ServeHTTP runs against one table. -/
def tablePipeline (cfg : DispatchCfg) (table : RTable) (ctx : RouteContext) :
    Option Resp :=
  match serveInTable table ctx.method ctx.matchPath ctx.paramPath with
  | some r => some r
  | none =>
    match tryAlternateSlashInTable cfg table ctx with
    | some r => some r
    | none => handleMethodNotAllowedInTable cfg table ctx

/-- Router.ServeHTTP (src/router/router.go) after prepareRouteContext, for
an already-normalized host: the host table pipeline when the host is
registered, then the default table pipeline, then NotFound. -/
def dispatch (cfg : DispatchCfg) (table : RTable)
    (hosts : List (GoStr × RTable)) (host : GoStr) (ctx : RouteContext) :
    Resp :=
  let hostAttempt :=
    if host ≠ [] then
      match alookup hosts host with
      | some t => tablePipeline cfg t ctx
      | none => none
    else none
  match hostAttempt with
  | some r => r
  | none =>
    match tablePipeline cfg table ctx with
    | some r => r
    | none =>
      match cfg.NotFound with
      | some id => .notFoundCustom id
      | none => .notFound

/-- prepareRouteContext from src/router/serve.go, decoded branch (the raw
branch needs net/url escaping oracles; rawValid reports whether the request
carries a RawPath equal to its round-tripped escape). -/
def prepareRouteContext (method urlPath urlRawPath : GoStr)
    (useRawPath rawValid ignoreCase : Bool) : RouteContext ⊕ Resp :=
  let useRaw := useRawPath ∧ urlRawPath ≠ [] ∧ rawValid
  if urlPath.length > MaxPathLength then .inr .uriTooLong
  else if useRaw ∧ urlRawPath.length > MaxPathLength then .inr .uriTooLong
  else if ¬useRaw then
    let cleaned := cleanPath urlPath
    if cleaned.length > MaxPathLength then .inr .uriTooLong
    else if cleaned ≠ urlPath then .inr (.redirect (redirCode method) cleaned)
    else
      let mp := if ignoreCase then lowerASCII cleaned else cleaned
      .inl ⟨method, mp, cleaned⟩
  else
    let mp := if ignoreCase then lowerASCII urlRawPath else urlRawPath
    .inl ⟨method, mp, urlRawPath⟩

/-! ### Registration (Router.handle, src/router/router.go)

Middlewares are abstracted to the three behaviours applyMiddlewares can
observe: a nil entry, an entry whose wrapper returns a nil handler, and a
well-behaved entry (composition preserves the handler identifier, since the
claims only compare handler identity). -/

inductive MW where
  | valid
  | nilMW
  | returnsNil
  deriving Repr, DecidableEq

/-- Core loop of applyMiddlewares from the router group file, walking the
chain from the last middleware to the first. -/
def applyMWrev : List MW → Option ErrKind
  | [] => none
  | .nilMW :: _ => some .nilMiddleware
  | .returnsNil :: _ => some .middlewareNilHandler
  | .valid :: rest => applyMWrev rest

/-- applyMiddlewares: iterates the chain from the end; a nil middleware or a
nil wrapped handler aborts with an error. -/
def applyMiddlewares (mws : List MW) : Option ErrKind :=
  applyMWrev mws.reverse

/-- Router state from src/router/router.go (the default route table, the
middleware list, the route counter and the IgnoreCase latch; host tables are
not consulted by Handle, which registers on the default table). -/
structure RouterState where
  table : RTable
  middlewares : List MW
  routesCount : Nat
  ignoreCaseSet : Bool
  ignoreCaseEnabled : Bool
  IgnoreCase : Bool

/-- Tests whether a segment is a parameter or wildcard token. -/
def isDyn (part : GoStr) : Bool :=
  part ≠ [] ∧ (part.headI = 58 ∨ part.headI = 42)

/-- IgnoreCase lowering of registered segments: parameter and wildcard
tokens pass through, static literals are lowercased. -/
def lowerParts (parts : List GoStr) : List GoStr :=
  parts.map (fun part => if isDyn part then part else lowerASCII part)

/-- Router.handle from src/router/router.go for the default table (Handle
calls it with an empty host and no group middlewares). Returns the state
after the call — including every mutation a failing call leaves behind (the
IgnoreCase latch is written before middleware composition and insertion) —
together with the error. -/
def handle (st : RouterState) (method pattern : GoStr)
    (handler : Option Nat) : RouterState × Option ErrKind :=
  if handler = none then (st, some .nilHandler)
  else if ¬isValidMethod method then (st, some .invalidMethod)
  else
    let cleaned := cleanPath pattern
    if cleaned ≠ pattern then (st, some .nonCanonical)
    else if cleaned.length > MaxPathLength then (st, some .patternTooLong)
    else
      match getParts cleaned with
      | none => (st, some .invalidPath)
      | some segs =>
        if segs.parts.length > MaxDepth then (st, some .routeTooDeep)
        else
          match validateParamNames segs.parts cleaned with
          | some e => (st, some e)
          | none =>
            let ignoreCase :=
              if st.ignoreCaseSet then st.ignoreCaseEnabled else st.IgnoreCase
            let st := { st with ignoreCaseSet := true,
                                ignoreCaseEnabled := ignoreCase }
            let trailingSlash :=
              cleaned.length > 1 ∧ cleaned.getLast? = some 47
            let matchParts :=
              if ignoreCase then lowerParts segs.parts else segs.parts
            let matchPattern :=
              if ignoreCase then
                if matchParts = [] then gs "/"
                else
                  (47 :: joinSep 47 matchParts) ++
                    (if trailingSlash then [47] else [])
              else cleaned
            let hasParams := matchParts.any isDyn
            match (if st.middlewares ≠ [] then applyMiddlewares st.middlewares
                   else none) with
            | some e => (st, some e)
            | none =>
              let root := (alookup st.table.roots method).getD
                (.mk [] [] [] none none none false)
              let r := root.insert matchPattern matchParts 0 handler hasParams
              let table := { st.table with
                roots := aset st.table.roots method r.1 }
              match r.2 with
              | some e => ({ st with table := table }, some e)
              | none =>
                let table :=
                  if matchPattern.length > 1 ∧ matchPattern.getLast? = some 47
                  then { table with hasTrailing := true } else table
                let table :=
                  if hasParams then
                    { table with hasParams := aset table.hasParams method true,
                                 anyParams := true }
                  else
                    let m := (alookup table.static method).getD []
                    let m := aset m matchPattern (handler.getD 0)
                    let static := aset table.static method m
                    let staticAllow :=
                      match buildStaticAllowHeader static matchPattern with
                      | some allow => aset table.staticAllow matchPattern allow
                      | none => table.staticAllow
                    { table with static := static, staticAllow := staticAllow }
                ({ st with table := table, routesCount := st.routesCount + 1 },
                 none)

/-- Fresh router state (NewRouter, StrictSlash defaults true but the flag
lives in DispatchCfg for dispatch). -/
def RouterState.empty : RouterState :=
  { table := RTable.empty, middlewares := [], routesCount := 0,
    ignoreCaseSet := false, ignoreCaseEnabled := false, IgnoreCase := false }

/-! ### Frozen router (src/router/frozen.go)

The freeze walk compresses maximal single-child static chains into span
nodes; its recursion is bounded by the trie depth, so the functions carry
fuel that a registration-built trie (depth at most MaxDepth + 1) can never
exhaust. -/

/-- frozenNode from src/router/frozen.go. -/
inductive FrozenNode where
  | mk (staticSpan : GoStr) (spanSegs : Nat) (part : GoStr)
      (staticChildren : List (GoStr × FrozenNode))
      (paramChild : Option FrozenNode) (wildChild : Option FrozenNode)
      (pattern : GoStr) (handler : Option Nat) (hasParams : Bool)

def FrozenNode.staticSpan : FrozenNode → GoStr | .mk v _ _ _ _ _ _ _ _ => v
def FrozenNode.spanSegs : FrozenNode → Nat | .mk _ v _ _ _ _ _ _ _ => v
def FrozenNode.part : FrozenNode → GoStr | .mk _ _ v _ _ _ _ _ _ => v
def FrozenNode.staticChildren : FrozenNode → List (GoStr × FrozenNode)
  | .mk _ _ _ v _ _ _ _ _ => v
def FrozenNode.paramChild : FrozenNode → Option FrozenNode
  | .mk _ _ _ _ v _ _ _ _ => v
def FrozenNode.wildChild : FrozenNode → Option FrozenNode
  | .mk _ _ _ _ _ v _ _ _ => v
def FrozenNode.pattern : FrozenNode → GoStr | .mk _ _ _ _ _ _ v _ _ => v
def FrozenNode.handler : FrozenNode → Option Nat | .mk _ _ _ _ _ _ _ v _ => v
def FrozenNode.hasParams : FrozenNode → Bool | .mk _ _ _ _ _ _ _ _ v => v

/-- Association lookup among frozen static children. -/
def fchildGet (l : List (GoStr × FrozenNode)) (part : GoStr) :
    Option FrozenNode :=
  match l with
  | [] => none
  | (k, n) :: rest => if k = part then some n else fchildGet rest part

/-- compressStaticChain from src/router/frozen.go: collects the maximal
run of single-child static nodes with no leaf and no dynamic child and
returns the collected segment literals with the chain's end node. -/
def compressStaticChain (fuel : Nat) (cur : Node) : List GoStr × Node :=
  match fuel with
  | 0 => ([cur.part], cur)
  | fuel + 1 =>
    if cur.pattern ≠ [] ∨ cur.handler ≠ none ∨ (cur.paramChild).isSome ∨
        (cur.wildChild).isSome then ([cur.part], cur)
    else
      match cur.staticChildren with
      | [(_, next)] =>
        let r := compressStaticChain fuel next
        (cur.part :: r.1, r.2)
      | _ => ([cur.part], cur)

mutual

/-- buildFrozenStatic from src/router/frozen.go: a span node built from a
compressed chain, its children frozen recursively. -/
def buildFrozenStatic (fuel : Nat) (parts : List GoStr) (endNode : Node) :
    FrozenNode :=
  match fuel with
  | 0 => .mk (joinSep 47 parts) parts.length [] [] none none endNode.pattern
      endNode.handler endNode.hasParams
  | fuel + 1 =>
    .mk (joinSep 47 parts) parts.length []
      (endNode.staticChildren.map
        (fun e =>
          let r := compressStaticChain searchFuel e.2
          (r.1.headI, buildFrozenStatic fuel r.1 r.2)))
      ((endNode.paramChild).map (buildFrozenNode fuel))
      ((endNode.wildChild).map (buildFrozenNode fuel))
      endNode.pattern endNode.handler endNode.hasParams

/-- buildFrozenNode from src/router/frozen.go: a one-segment frozen node
mirroring a dynamic (or root-level) mutable node. -/
def buildFrozenNode (fuel : Nat) (n : Node) : FrozenNode :=
  match fuel with
  | 0 => .mk [] 0 n.part [] none none n.pattern n.handler n.hasParams
  | fuel + 1 =>
    .mk [] 0 n.part
      (n.staticChildren.map
        (fun e =>
          let r := compressStaticChain searchFuel e.2
          (r.1.headI, buildFrozenStatic fuel r.1 r.2)))
      ((n.paramChild).map (buildFrozenNode fuel))
      ((n.wildChild).map (buildFrozenNode fuel))
      n.pattern n.handler n.hasParams

end

/-- freezeRoot from src/router/frozen.go: the root keeps no part and no
span; its static children are compressed chains. -/
def freezeRoot (root : Node) : FrozenNode :=
  .mk [] 0 []
    (root.staticChildren.map
      (fun e =>
        let r := compressStaticChain searchFuel e.2
        (r.1.headI, buildFrozenStatic searchFuel r.1 r.2)))
    ((root.paramChild).map (buildFrozenNode searchFuel))
    ((root.wildChild).map (buildFrozenNode searchFuel))
    root.pattern root.handler root.hasParams

/-- frozenTable from src/router/frozen.go. -/
structure FTable where
  roots : List (GoStr × FrozenNode)
  static : List (GoStr × List (GoStr × Nat))
  staticAllow : List (GoStr × GoStr)
  hasParams : List (GoStr × Bool)
  anyParams : Bool

/-- freezeTable from src/router/frozen.go: value-copies of the maps plus
frozen trie roots (note: frozenTable records no hasTrailing flag). -/
def freezeTable (src : RTable) : FTable :=
  { roots := src.roots.map (fun e => (e.1, freezeRoot e.2)),
    static := src.static,
    staticAllow := src.staticAllow,
    hasParams := src.hasParams,
    anyParams := src.anyParams }

/-- hasParams flag lookup on a frozen table. -/
def FTable.hasParamsFor (t : FTable) (method : GoStr) : Bool :=
  (alookup t.hasParams method).getD false

/-- frozenNode.search from src/router/frozen.go: the span comparison
consumes spanSegs segments in one byte-range equality, then the node behaves
like node.search. -/
def FrozenNode.search (fuel : Nat) (n : FrozenNode) (segs : PathSegments)
    (height : Nat) (params : Option Params) :
    Option FrozenNode × Option Params :=
  match fuel with
  | 0 => (none, params)
  | fuel + 1 =>
    let parts := segs.parts
    if height > MaxDepth then (none, params)
    else
      let heightAfter := height + n.spanSegs
      let spanOk :=
        if n.spanSegs > 0 then
          if heightAfter > parts.length then false
          else
            let start := segs.indices.getD height 0
            let last := heightAfter - 1
            let stop := segs.indices.getD last 0 + (parts.getD last []).length
            goSub segs.matchPath start stop = n.staticSpan
        else true
      if ¬spanOk then (none, params)
      else
        let height := heightAfter
        if height = parts.length ∨ (n.part ≠ [] ∧ n.part.headI = 42) then
          if n.pattern = [] then
            if height = parts.length then
              match n.wildChild with
              | some w => w.search fuel segs height params
              | none => (none, params)
            else (none, params)
          else
            match params with
            | some ps =>
              if n.part ≠ [] ∧ n.part.headI = 42 then
                let start := segs.indices.getD height 0
                let start :=
                  if start < segs.path.length ∧ segs.path.getD start 0 = 47
                  then start + 1 else start
                (some n, some (ps.Add (n.part.tail) (goSuffix segs.path start)))
              else (some n, some ps)
            | none => (some n, none)
        else
          let part := parts.getD height []
          let stat :=
            match fchildGet n.staticChildren part with
            | some child => child.search fuel segs height params
            | none => (none, params)
          if stat.1.isSome then stat
          else
            let params := stat.2
            let par :=
              match n.paramChild with
              | some child =>
                match params with
                | some ps =>
                  let snapshot := ps.Keys.length
                  let start := segs.indices.getD height 0
                  let stop := start + part.length
                  let value :=
                    if stop ≤ segs.path.length then goSub segs.path start stop
                    else part
                  let r := child.search fuel segs (height + 1)
                    (some (ps.Add (child.part.tail) value))
                  if r.1.isSome then r
                  else
                    match r.2 with
                    | some ps1 => (none, some (ps1.truncate snapshot))
                    | none => (none, none)
                | none => child.search fuel segs (height + 1) none
              | none => (none, params)
            if par.1.isSome then par
            else
              let params := par.2
              match n.wildChild with
              | some child => child.search fuel segs height params
              | none => (none, params)

/-- FrozenRouter.allowedMethodsInTable from src/router/frozen.go. -/
def fAllowedMethodsInTable (table : FTable) (matchPath : GoStr) :
    Option GoStr :=
  if ¬table.anyParams then alookup table.staticAllow matchPath
  else
    let bc := table.static.foldl
      (fun (bc : Nat × List GoStr) e =>
        match alookup e.2 matchPath with
        | some _ => addAllowedMethod e.1 bc.1 bc.2
        | none => bc) (0, [])
    let needTrie := table.hasParams.any
      (fun e => e.2 ∧ (alookup table.roots e.1).isSome)
    let segsOpt :=
      if needTrie then
        match getParts matchPath with
        | none => none
        | some segs =>
          if segs.parts.length > MaxDepth then none else some (some segs)
      else some none
    match segsOpt with
    | none => none
    | some segsMaybe =>
      let bc := table.hasParams.foldl
        (fun (bc : Nat × List GoStr) e =>
          if e.2 then
            match alookup table.roots e.1 with
            | some root =>
              match segsMaybe with
              | some segs =>
                if (root.search searchFuel segs 0 none).1.isSome then
                  addAllowedMethod e.1 bc.1 bc.2
                else bc
              | none => bc
            | none => bc
          else bc) bc
      if bc.1 = 0 ∧ bc.2 = [] then none
      else
        let bits :=
          if bc.1 &&& allowMethodGet ≠ 0 then bc.1 ||| allowMethodHead else bc.1
        some (buildAllowHeader (bits ||| allowMethodOptions) bc.2)

/-- FrozenRouter.serveMethodInTable from src/router/frozen.go. -/
def fServeMethodInTable (table : FTable) (method matchPath rawPath : GoStr) :
    Option Resp :=
  let tryTrie : Option Resp :=
    match getPartsWithRaw matchPath rawPath with
    | none => none
    | some segs =>
      if segs.parts.length > MaxDepth then none
      else
        match alookup table.roots method with
        | none => none
        | some root =>
          match (root.search searchFuel segs 0 none).1 with
          | some node =>
            match node.handler with
            | some h =>
              if ¬node.hasParams then some (.handlerRun h none)
              else
                let ps := (root.search searchFuel segs 0 (some ⟨[], []⟩)).2
                some (.handlerRun h ps)
            | none => none
          | none => none
  match alookup table.static method with
  | some m =>
    match alookup m matchPath with
    | some h => some (.handlerRun h none)
    | none => if ¬table.hasParamsFor method then none else tryTrie
  | none => if ¬table.hasParamsFor method then none else tryTrie

/-- FrozenRouter.serveInTable from src/router/frozen.go. -/
def fServeInTable (table : FTable) (method matchPath rawPath : GoStr) :
    Option Resp :=
  if method = mHEAD then
    match fServeMethodInTable table mHEAD matchPath rawPath with
    | some r => some r
    | none => fServeMethodInTable table mGET matchPath rawPath
  else fServeMethodInTable table method matchPath rawPath

/-- FrozenRouter.tryAlternateSlashInTable from src/router/frozen.go (note:
unlike the mutable router there is no hasTrailing fast-skip). -/
def fTryAlternateSlashInTable (cfg : DispatchCfg) (table : FTable)
    (ctx : RouteContext) : Option Resp :=
  match alternatePath ctx.matchPath with
  | none => none
  | some altMatch =>
    if altMatch = ctx.matchPath then none
    else if cfg.StrictSlash then
      match fAllowedMethodsInTable table altMatch with
      | some _ =>
        match alternatePath ctx.paramPath with
        | some altRedirect =>
          if altRedirect ≠ [] then
            some (.redirect (redirCode ctx.method) altRedirect)
          else none
        | none => none
      | none => none
    else
      match alternatePath ctx.paramPath with
      | some altParam => fServeInTable table ctx.method altMatch altParam
      | none => fServeInTable table ctx.method altMatch []

/-- FrozenRouter.handleMethodNotAllowedInTable from src/router/frozen.go
(no hasTrailing fast-skip in the non-strict branch either). -/
def fHandleMethodNotAllowedInTable (cfg : DispatchCfg) (table : FTable)
    (ctx : RouteContext) : Option Resp :=
  match fAllowedMethodsInTable table ctx.matchPath with
  | some allow =>
    some (respondMethodNotAllowed ctx.method allow cfg.MethodNotAllowed)
  | none =>
    if ¬cfg.StrictSlash then
      match alternatePath ctx.matchPath with
      | some altMatch =>
        match fAllowedMethodsInTable table altMatch with
        | some allow =>
          some (respondMethodNotAllowed ctx.method allow cfg.MethodNotAllowed)
        | none => none
      | none => none
    else none

/-- The per-table pipeline of FrozenRouter.ServeHTTP. -/
def fTablePipeline (cfg : DispatchCfg) (table : FTable) (ctx : RouteContext) :
    Option Resp :=
  match fServeInTable table ctx.method ctx.matchPath ctx.paramPath with
  | some r => some r
  | none =>
    match fTryAlternateSlashInTable cfg table ctx with
    | some r => some r
    | none => fHandleMethodNotAllowedInTable cfg table ctx

/-- FrozenRouter.ServeHTTP (src/router/frozen.go) after prepareRouteContext
for an already-normalized host. -/
def fDispatch (cfg : DispatchCfg) (table : FTable)
    (hosts : List (GoStr × FTable)) (host : GoStr) (ctx : RouteContext) :
    Resp :=
  let hostAttempt :=
    if host ≠ [] then
      match alookup hosts host with
      | some t => fTablePipeline cfg t ctx
      | none => none
    else none
  match hostAttempt with
  | some r => r
  | none =>
    match fTablePipeline cfg table ctx with
    | some r => r
    | none =>
      match cfg.NotFound with
      | some id => .notFoundCustom id
      | none => .notFound

/-! ### Ring buffer (src/logger/ringbuffer.go)

Sequential semantics of the MPSC ring buffer: one interleaved execution in
which each TryWrite's compare-and-swap succeeds on its first attempt (the
retry loop only re-runs the same logic) and the reserved slot is already
EMPTY, so the producer spin-wait is skipped — which is exactly what happens
in any single-threaded run. WRITING is therefore immediately overwritten by
READY; the unreachable busy branch is encoded as a refusal. Head and tail
are uint64 in the source; they stay far below 2^64 here, so Nat addition
models them exactly. -/

/-- LogEvent from src/logger/ringbuffer.go (the timing and remote-address
fields are environment inputs and are dropped; they play no role in any
claim about buffer or middleware logic except status and bytes). -/
structure LogEvent where
  Message : GoStr
  Method : GoStr
  Path : GoStr
  Status : Nat
  Bytes : Nat
  deriving Repr, DecidableEq

/-- The slot states of src/logger/ringbuffer.go. -/
def slotEmpty : Nat := 0
def slotReady : Nat := 2

/-- RingBuffer from src/logger/ringbuffer.go (padding is memory layout and
has no functional content). -/
structure RB where
  head : Nat
  tail : Nat
  mask : Nat
  data : List LogEvent
  state : List Nat
  closed : Bool
  deriving Repr, DecidableEq

/-- Capacity (Cap from src/logger/ringbuffer.go). -/
def RB.cap (rb : RB) : Nat := rb.mask + 1

/-- NewRingBuffer from src/logger/ringbuffer.go: the capacity must be a
non-zero power of two. -/
def newRingBuffer (capacity : Nat) : Option RB :=
  if capacity = 0 ∨ capacity &&& (capacity - 1) ≠ 0 then none
  else some
    { head := 0, tail := 0, mask := capacity - 1,
      data := List.replicate capacity ⟨[], [], [], 0, 0⟩,
      state := List.replicate capacity slotEmpty, closed := false }

/-- Close from src/logger/ringbuffer.go. -/
def RB.close (rb : RB) : RB := { rb with closed := true }

/-- TryWrite from src/logger/ringbuffer.go under sequential semantics:
false when closed or when head - tail has reached the capacity, otherwise
the slot head & mask receives the event (WRITING then READY) and head
advances. The third branch is the producer spin on a non-EMPTY slot, which
no single-threaded execution reaches. -/
def RB.tryWrite (rb : RB) (event : LogEvent) : Bool × RB :=
  if rb.closed then (false, rb)
  else if rb.cap ≤ rb.head - rb.tail then (false, rb)
  else
    -- head & mask in the source; with mask = capacity - 1 and the capacity a
    -- power of two this is exactly head % capacity.
    let slotIdx := rb.head % rb.cap
    if rb.state.getD slotIdx 0 ≠ slotEmpty then (false, rb)
    else
      (true, { rb with head := rb.head + 1,
                       data := rb.data.set slotIdx event,
                       state := rb.state.set slotIdx slotReady })

/-- One batch iteration of Consume from src/logger/ringbuffer.go: when the
slot at tail is READY, scan forward up to min(capacity, 128) READY slots,
deliver them as one or two contiguous slices of the underlying array (split
at the wrap point), mark them EMPTY and advance tail. Returns the handler
batches in delivery order. -/
def RB.consumeStep (rb : RB) : List (List LogEvent) × RB :=
  let curr := rb.tail
  -- curr & mask in the source: % capacity, as in tryWrite.
  let slotIdx := curr % rb.cap
  if rb.state.getD slotIdx 0 = slotReady then
    let batchLimit := min rb.cap 128
    let available := countReady rb curr batchLimit 0
    if available > 0 then
      let nextSlot := slotIdx
      let endSlot := (curr + available) % rb.cap
      let batches :=
        if endSlot > nextSlot then
          [goSubE rb.data nextSlot endSlot]
        else
          [goSubE rb.data nextSlot rb.cap, goSubE rb.data 0 endSlot]
      let state := clearSlots rb.state rb.mask curr available
      (batches, { rb with state := state, tail := curr + available })
    else ([], rb)
  else ([], rb)
where
  /-- Forward scan counting consecutive READY slots. -/
  countReady (rb : RB) (curr : Nat) : Nat → Nat → Nat
    | 0, acc => acc
    | n + 1, acc =>
      if rb.state.getD ((curr + acc) % rb.cap) 0 = slotReady then
        countReady rb curr n (acc + 1)
      else acc
  /-- Slice of the event array (rb.data with slice syntax). -/
  goSubE (l : List LogEvent) (a b : Nat) : List LogEvent :=
    (l.drop a).take (b - a)
  /-- Marks the consumed slots EMPTY. -/
  clearSlots (state : List Nat) (mask curr : Nat) : Nat → List Nat
    | 0 => state
    | n + 1 => (clearSlots state mask curr n).set ((curr + n) % (mask + 1)) slotEmpty

/-- Events a consume step hands to the handler, in delivery order. -/
def RB.consumeStepEvents (rb : RB) : List LogEvent :=
  (rb.consumeStep).1.flatten

/-- consumeBatch from src/logger/ringbuffer.go: the handler runs under a
deferred recover whose result is discarded, so a handler panic never
escapes. Handler execution is its Except outcome (error = panic value). -/
def recoverDiscard (r : Except Nat Unit) : Except Nat Unit :=
  match r with
  | .error _ => .ok ()
  | .ok u => .ok u

/-- consumeBatch from src/logger/ringbuffer.go applied to the outcome of
running the handler on a batch. -/
def consumeBatch (handler : List LogEvent → Except Nat Unit)
    (batch : List LogEvent) : Except Nat Unit :=
  recoverDiscard (handler batch)

/-- The consumer panic policy the specification mandates (spec section 4.8
and section 9: a handler panic is passed to the configured PanicHandler,
otherwise rethrown, never silently swallowed). Returns the value forwarded
to the panic handler, if any, and the escaping outcome. -/
def consumeBatchMandated (panicHandlerSet : Bool)
    (handler : List LogEvent → Except Nat Unit) (batch : List LogEvent) :
    Option Nat × Except Nat Unit :=
  match handler batch with
  | .ok u => (none, .ok u)
  | .error v => if panicHandlerSet then (some v, .ok ()) else (none, .error v)

/-! ### Access-log middleware (src/unnamed/part_008)

A handler execution is a finite action trace seen by the statusWriter
wrapper: WriteHeader calls, body writes, and at most one panic cutting the
trace short. -/

inductive HAction where
  | writeHeader (code : Nat)
  | write (n : Nat)
  | panicNow (v : Nat)
  deriving Repr, DecidableEq

/-- statusWriter semantics from src/unnamed/part_008: the first WriteHeader
fixes the status, a body write fixes status 200 if none was set and adds to
the byte count, a panic aborts the trace. Returns (status, bytes, panic). -/
def runStatusWriter : List HAction → Nat → Nat → Nat × Nat × Option Nat
  | [], status, bytes => (status, bytes, none)
  | .writeHeader code :: rest, status, bytes =>
    runStatusWriter rest (if status = 0 then code else status) bytes
  | .write n :: rest, status, bytes =>
    runStatusWriter rest (if status = 0 then 200 else status) (bytes + n)
  | .panicNow v :: _, status, bytes => (status, bytes, some v)

/-- statusToUint16 from src/unnamed/part_008. -/
def statusToUint16 (status : Nat) : Nat :=
  if status = 0 then 0 else if status > 65535 then 65535 else status

/-- AccessLog from src/unnamed/part_008: runs the wrapped handler under the
statusWriter, and in the deferred scope substitutes status 500 when the
handler panicked without ever setting a status (200 when it finished
without setting one), composes the LogEvent, calls TryWrite ignoring its
result, and finally rethrows a captured panic. Returns the composed event,
the TryWrite result, the buffer after the write, and the escaping panic. -/
def accessLog (rb : RB) (method path : GoStr) (acts : List HAction) :
    LogEvent × Bool × RB × Option Nat :=
  let r := runStatusWriter acts 0 0
  let status := r.1
  let bytes := r.2.1
  let recovered := r.2.2
  let status :=
    if status = 0 then
      if recovered.isSome then 500 else 200
    else status
  let event : LogEvent :=
    { Message := [], Method := method, Path := path,
      Status := statusToUint16 status, Bytes := bytes }
  let w := rb.tryWrite event
  (event, w.1, w.2, recovered)

/-! ## Supporting lemmas -/

/-- A byte list without uppercase ASCII letters is fixed by lowerByte. -/
theorem map_lowerByte_of_no_upper (s : GoStr) (h : s.any isUpperByte = false) :
    s.map lowerByte = s := by
  induction s with
  | nil => rfl
  | cons c rest ih =>
    simp only [List.any_cons, Bool.or_eq_false_iff] at h
    have hc : ¬(65 ≤ c ∧ c ≤ 90) := by
      have := h.1
      simp [isUpperByte] at this
      omega
    simp [lowerByte, hc, ih h.2]

/-- lowerASCII is exactly the bytewise ASCII lowering map. -/
theorem lowerASCII_eq_map (s : GoStr) : lowerASCII s = s.map lowerByte := by
  unfold lowerASCII
  by_cases h : s.any isUpperByte
  · simp [h]
  · simp only [h, if_false]
    exact (map_lowerByte_of_no_upper s (by simpa using h)).symm

/-- The value a parameter descent captures for the current segment (the
slice of the original path when the offsets are in range, otherwise the
normalized segment itself). -/
def paramValue (segs : PathSegments) (height : Nat) : GoStr :=
  let start := segs.indices.getD height 0
  let stop := start + (segs.parts.getD height []).length
  if stop ≤ segs.path.length then goSub segs.path start stop
  else segs.parts.getD height []

/-- The static attempt node.search makes at a level: descend into the
static child keyed by the current segment, or miss leaving the store. -/
def staticAttempt (fuel : Nat) (n : Node) (segs : PathSegments) (height : Nat)
    (ps : Params) : Option Node × Option Params :=
  match childGet n.staticChildren (segs.parts.getD height []) with
  | some c => c.search fuel segs (height + 1) (some ps)
  | none => (none, some ps)

/-- The parameter attempt node.search makes at a level: descend into the
parameter child with the captured value appended to the store. -/
def paramAttempt (fuel : Nat) (n : Node) (segs : PathSegments) (height : Nat)
    (ps : Params) : Option Node × Option Params :=
  match n.paramChild with
  | some c =>
    c.search fuel segs (height + 1)
      (some (ps.Add (c.part.tail) (paramValue segs height)))
  | none => (none, some ps)

/-- The wildcard attempt node.search makes at a level: descend into the
wildcard child at the same height. -/
def wildAttempt (fuel : Nat) (n : Node) (segs : PathSegments) (height : Nat)
    (ps : Params) : Option Node × Option Params :=
  match n.wildChild with
  | some c => c.search fuel segs height (some ps)
  | none => (none, some ps)

/-- A failed search leaves the parameter store exactly as it was: every
parameter capture along a failing descent is rolled back to its snapshot
(the Go code truncates Keys and Values to the recorded pre-descent length,
which restores the store because both slices grow in lockstep). -/
theorem params_add_truncate (ps : Params) (k v : GoStr)
    (hbal : ps.Keys.length = ps.Values.length) :
    (ps.Add k v).truncate ps.Keys.length = ps := by
  unfold Params.Add Params.truncate
  cases ps with
  | mk keys values =>
    simp only at hbal ⊢
    rw [List.take_left, hbal, List.take_left]

theorem search_miss_preserves_params (fuel : Nat) :
    ∀ (n : Node) (segs : PathSegments) (height : Nat) (ps : Params),
      ps.Keys.length = ps.Values.length →
      (n.search fuel segs height (some ps)).1 = none →
      (n.search fuel segs height (some ps)).2 = some ps := by
  induction fuel with
  | zero => intro n segs height ps _ _; rfl
  | succ fuel ih =>
    intro n segs height ps hbal hmiss
    by_cases h1 : height > MaxDepth
    · rw [search_succ] at hmiss ⊢
      simp [h1]
    · by_cases h2 : height = segs.parts.length ∨ (n.part ≠ [] ∧ n.part.headI = 42)
      · -- base-case block
        have hstep : n.search (fuel + 1) segs height (some ps) =
            searchBase fuel n segs height (some ps) := by
          rw [search_succ, if_neg h1, if_pos h2]
        rw [hstep] at hmiss ⊢
        by_cases h3 : n.pattern = []
        · by_cases h4 : height = segs.parts.length
          · cases hw : n.wildChild with
            | some w =>
              have hb : searchBase fuel n segs height (some ps) =
                  w.search fuel segs height (some ps) := by
                unfold searchBase
                rw [if_pos h3, if_pos h4, hw]
              rw [hb] at hmiss ⊢
              exact ih w segs height ps hbal hmiss
            | none => simp [searchBase, h3, h4, hw]
          · simp [searchBase, h3, h4]
        · -- a leaf here returns some n, contradicting the miss
          exfalso
          by_cases h5 : n.part ≠ [] ∧ n.part.headI = 42 <;>
            simp [searchBase, h3, h5] at hmiss
      · -- cascade block
        have hstep : n.search (fuel + 1) segs height (some ps) =
            searchCascade fuel n segs height (some ps) := by
          rw [search_succ, if_neg h1, if_neg h2]
        rw [hstep] at hmiss ⊢
        cases hcg : childGet n.staticChildren (segs.parts[height]?.getD []) with
        | some c =>
          cases hs : (c.search fuel segs (height + 1) (some ps)).1 with
          | some x =>
            exfalso
            have hcs : searchCascade fuel n segs height (some ps) =
                c.search fuel segs (height + 1) (some ps) := by
              simp [searchCascade, hcg, hs]
            rw [hcs, hs] at hmiss
            exact Option.noConfusion hmiss
          | none =>
            have hs2 := ih c segs (height + 1) ps hbal hs
            cases hpc : n.paramChild with
            | some c2 =>
              cases hr : (c2.search fuel segs (height + 1)
                  (some (ps.Add (c2.part.tail)
                    (if segs.indices[height]?.getD 0 +
                        (segs.parts[height]?.getD []).length ≤ segs.path.length
                     then goSub segs.path (segs.indices[height]?.getD 0)
                        (segs.indices[height]?.getD 0 +
                          (segs.parts[height]?.getD []).length)
                     else segs.parts[height]?.getD [])))).1 with
              | some x =>
                exfalso
                have hcs : searchCascade fuel n segs height (some ps) =
                    c2.search fuel segs (height + 1)
                      (some (ps.Add (c2.part.tail)
                        (if segs.indices[height]?.getD 0 +
                        (segs.parts[height]?.getD []).length ≤ segs.path.length
                     then goSub segs.path (segs.indices[height]?.getD 0)
                        (segs.indices[height]?.getD 0 +
                          (segs.parts[height]?.getD []).length)
                     else segs.parts[height]?.getD []))) := by
                  simp [searchCascade, hcg, hs, hs2, hpc, hr]
                rw [hcs, hr] at hmiss
                exact Option.noConfusion hmiss
              | none =>
                have hr2 := ih c2 segs (height + 1) _
                  (by simp [Params.Add, hbal]) hr
                have hcs : searchCascade fuel n segs height (some ps) =
                    match n.wildChild with
                    | some w => w.search fuel segs height (some ps)
                    | none => (none, some ps) := by
                  simp [searchCascade, hcg, hs, hs2, hpc, hr, hr2,
                    params_add_truncate ps _ _ hbal]
                rw [hcs] at hmiss ⊢
                cases hw : n.wildChild with
                | some w =>
                  simp only [hw] at hmiss ⊢
                  exact ih w segs height ps hbal hmiss
                | none => simp only [hw]
            | none =>
              have hcs : searchCascade fuel n segs height (some ps) =
                  match n.wildChild with
                  | some w => w.search fuel segs height (some ps)
                  | none => (none, some ps) := by
                simp [searchCascade, hcg, hs, hs2, hpc]
              rw [hcs] at hmiss ⊢
              cases hw : n.wildChild with
              | some w =>
                simp only [hw] at hmiss ⊢
                exact ih w segs height ps hbal hmiss
              | none => simp only [hw]
        | none =>
          cases hpc : n.paramChild with
          | some c2 =>
            cases hr : (c2.search fuel segs (height + 1)
                (some (ps.Add (c2.part.tail)
                  (if segs.indices[height]?.getD 0 +
                        (segs.parts[height]?.getD []).length ≤ segs.path.length
                     then goSub segs.path (segs.indices[height]?.getD 0)
                        (segs.indices[height]?.getD 0 +
                          (segs.parts[height]?.getD []).length)
                     else segs.parts[height]?.getD [])))).1 with
            | some x =>
              exfalso
              have hcs : searchCascade fuel n segs height (some ps) =
                  c2.search fuel segs (height + 1)
                    (some (ps.Add (c2.part.tail)
                      (if segs.indices[height]?.getD 0 +
                        (segs.parts[height]?.getD []).length ≤ segs.path.length
                     then goSub segs.path (segs.indices[height]?.getD 0)
                        (segs.indices[height]?.getD 0 +
                          (segs.parts[height]?.getD []).length)
                     else segs.parts[height]?.getD []))) := by
                simp [searchCascade, hcg, hpc, hr]
              rw [hcs, hr] at hmiss
              exact Option.noConfusion hmiss
            | none =>
              have hr2 := ih c2 segs (height + 1) _
                (by simp [Params.Add, hbal]) hr
              have hcs : searchCascade fuel n segs height (some ps) =
                  match n.wildChild with
                  | some w => w.search fuel segs height (some ps)
                  | none => (none, some ps) := by
                simp [searchCascade, hcg, hpc, hr, hr2,
                  params_add_truncate ps _ _ hbal]
              rw [hcs] at hmiss ⊢
              cases hw : n.wildChild with
              | some w =>
                simp only [hw] at hmiss ⊢
                exact ih w segs height ps hbal hmiss
              | none => simp only [hw]
          | none =>
            have hcs : searchCascade fuel n segs height (some ps) =
                match n.wildChild with
                | some w => w.search fuel segs height (some ps)
                | none => (none, some ps) := by
              simp [searchCascade, hcg, hpc]
            rw [hcs] at hmiss ⊢
            cases hw : n.wildChild with
            | some w =>
              simp only [hw] at hmiss ⊢
              exact ih w segs height ps hbal hmiss
            | none => simp only [hw]

/-- C2: strict static → param → wildcard lookup priority. At a level where
the path is not exhausted and the node is not a wildcard, (a) when the
static child keyed by the current segment exists and its sub-lookup yields
a result, the search returns exactly that result; (b) the parameter child
is consulted only when the static sub-lookup misses, and a hit there is
returned with the captured value appended; (c) the wildcard child is
consulted only when both the static and the parameter sub-lookups miss, and
by then the parameter store has been rolled back to its snapshot — the
wildcard attempt starts from the original store ps. -/
theorem trie_child_priority (fuel : Nat) (n : Node) (segs : PathSegments)
    (height : Nat) (ps : Params)
    (hbal : ps.Keys.length = ps.Values.length)
    (h1 : ¬height > MaxDepth)
    (h2 : height < segs.parts.length)
    (h3 : ¬(n.part ≠ [] ∧ n.part.headI = 42)) :
    ((staticAttempt fuel n segs height ps).1.isSome = true →
       n.search (fuel + 1) segs height (some ps) =
         staticAttempt fuel n segs height ps) ∧
    ((staticAttempt fuel n segs height ps).1 = none →
       (paramAttempt fuel n segs height ps).1.isSome = true →
       n.search (fuel + 1) segs height (some ps) =
         paramAttempt fuel n segs height ps) ∧
    ((staticAttempt fuel n segs height ps).1 = none →
       (paramAttempt fuel n segs height ps).1 = none →
       n.search (fuel + 1) segs height (some ps) =
         wildAttempt fuel n segs height ps) := by
  have h2ne : ¬(height = segs.parts.length ∨ (n.part ≠ [] ∧ n.part.headI = 42)) := by
    rintro (h | h)
    · omega
    · exact h3 h
  have hstep : n.search (fuel + 1) segs height (some ps) =
      searchCascade fuel n segs height (some ps) := by
    rw [search_succ, if_neg h1, if_neg h2ne]
  have hpv : paramValue segs height = (if segs.indices[height]?.getD 0 +
                      (segs.parts[height]?.getD []).length ≤ segs.path.length
                   then goSub segs.path (segs.indices[height]?.getD 0)
                      (segs.indices[height]?.getD 0 +
                        (segs.parts[height]?.getD []).length)
                   else segs.parts[height]?.getD []) := by
    simp [paramValue]
  refine ⟨?_, ?_, ?_⟩
  · intro hss
    cases hcg : childGet n.staticChildren (segs.parts[height]?.getD []) with
    | none =>
      exfalso
      simp [staticAttempt, hcg] at hss
    | some c =>
      have hsa : staticAttempt fuel n segs height ps =
          c.search fuel segs (height + 1) (some ps) := by
        simp [staticAttempt, hcg]
      rw [hsa] at hss ⊢
      cases hs : (c.search fuel segs (height + 1) (some ps)).1 with
      | none => rw [hs] at hss; simp at hss
      | some x =>
        rw [hstep]
        simp [searchCascade, hcg, hs]
  · intro hsm hps
    cases hpc : n.paramChild with
    | none =>
      exfalso
      simp [paramAttempt, hpc] at hps
    | some c2 =>
      have hpa : paramAttempt fuel n segs height ps =
          c2.search fuel segs (height + 1)
            (some (ps.Add (c2.part.tail) (if segs.indices[height]?.getD 0 +
                      (segs.parts[height]?.getD []).length ≤ segs.path.length
                   then goSub segs.path (segs.indices[height]?.getD 0)
                      (segs.indices[height]?.getD 0 +
                        (segs.parts[height]?.getD []).length)
                   else segs.parts[height]?.getD []))) := by
        simp [paramAttempt, hpc, hpv]
      rw [hpa] at hps ⊢
      cases hr : (c2.search fuel segs (height + 1)
          (some (ps.Add (c2.part.tail) (if segs.indices[height]?.getD 0 +
                      (segs.parts[height]?.getD []).length ≤ segs.path.length
                   then goSub segs.path (segs.indices[height]?.getD 0)
                      (segs.indices[height]?.getD 0 +
                        (segs.parts[height]?.getD []).length)
                   else segs.parts[height]?.getD [])))).1 with
      | none => rw [hr] at hps; simp at hps
      | some x =>
        rw [hstep]
        cases hcg : childGet n.staticChildren (segs.parts[height]?.getD []) with
        | none =>
          simp [searchCascade, hcg, hpc, hr]
        | some c =>
          have hs : (c.search fuel segs (height + 1) (some ps)).1 = none := by
            have hsa : staticAttempt fuel n segs height ps =
                c.search fuel segs (height + 1) (some ps) := by
              simp [staticAttempt, hcg]
            rw [hsa] at hsm
            exact hsm
          have hs2 := search_miss_preserves_params fuel c segs (height + 1) ps hbal hs
          simp [searchCascade, hcg, hs, hs2, hpc, hr]
  · intro hsm hpm
    rw [hstep]
    have hwild : searchCascade fuel n segs height (some ps) =
        match n.wildChild with
        | some w => w.search fuel segs height (some ps)
        | none => (none, some ps) := by
      cases hcg : childGet n.staticChildren (segs.parts[height]?.getD []) with
      | none =>
        cases hpc : n.paramChild with
        | none => simp [searchCascade, hcg, hpc]
        | some c2 =>
          have hr : (c2.search fuel segs (height + 1)
              (some (ps.Add (c2.part.tail) (if segs.indices[height]?.getD 0 +
                      (segs.parts[height]?.getD []).length ≤ segs.path.length
                   then goSub segs.path (segs.indices[height]?.getD 0)
                      (segs.indices[height]?.getD 0 +
                        (segs.parts[height]?.getD []).length)
                   else segs.parts[height]?.getD [])))).1 = none := by
            have hpa : paramAttempt fuel n segs height ps =
                c2.search fuel segs (height + 1)
                  (some (ps.Add (c2.part.tail) (if segs.indices[height]?.getD 0 +
                      (segs.parts[height]?.getD []).length ≤ segs.path.length
                   then goSub segs.path (segs.indices[height]?.getD 0)
                      (segs.indices[height]?.getD 0 +
                        (segs.parts[height]?.getD []).length)
                   else segs.parts[height]?.getD []))) := by
              simp [paramAttempt, hpc, hpv]
            rw [hpa] at hpm
            exact hpm
          have hr2 := search_miss_preserves_params fuel c2 segs (height + 1) _
            (by simp [Params.Add, hbal]) hr
          simp [searchCascade, hcg, hpc, hr, hr2,
            params_add_truncate ps _ _ hbal]
      | some c =>
        have hs : (c.search fuel segs (height + 1) (some ps)).1 = none := by
          have hsa : staticAttempt fuel n segs height ps =
              c.search fuel segs (height + 1) (some ps) := by
            simp [staticAttempt, hcg]
          rw [hsa] at hsm
          exact hsm
        have hs2 := search_miss_preserves_params fuel c segs (height + 1) ps hbal hs
        cases hpc : n.paramChild with
        | none => simp [searchCascade, hcg, hs, hs2, hpc]
        | some c2 =>
          have hr : (c2.search fuel segs (height + 1)
              (some (ps.Add (c2.part.tail) (if segs.indices[height]?.getD 0 +
                      (segs.parts[height]?.getD []).length ≤ segs.path.length
                   then goSub segs.path (segs.indices[height]?.getD 0)
                      (segs.indices[height]?.getD 0 +
                        (segs.parts[height]?.getD []).length)
                   else segs.parts[height]?.getD [])))).1 = none := by
            have hpa : paramAttempt fuel n segs height ps =
                c2.search fuel segs (height + 1)
                  (some (ps.Add (c2.part.tail) (if segs.indices[height]?.getD 0 +
                      (segs.parts[height]?.getD []).length ≤ segs.path.length
                   then goSub segs.path (segs.indices[height]?.getD 0)
                      (segs.indices[height]?.getD 0 +
                        (segs.parts[height]?.getD []).length)
                   else segs.parts[height]?.getD []))) := by
              simp [paramAttempt, hpc, hpv]
            rw [hpa] at hpm
            exact hpm
          have hr2 := search_miss_preserves_params fuel c2 segs (height + 1) _
            (by simp [Params.Add, hbal]) hr
          simp [searchCascade, hcg, hs, hs2, hpc, hr, hr2,
            params_add_truncate ps _ _ hbal]
    rw [hwild]
    cases hw : n.wildChild with
    | some w => simp [wildAttempt, hw]
    | none => simp [wildAttempt, hw]

/-- Facts extracted from a cons-shaped drop: the head is the byte at the
current position, the tail is the next drop, and the position is in range. -/
theorem drop_cons_facts (p : GoStr) (i c : Nat) (rest : GoStr)
    (h : p.drop i = c :: rest) :
    p.getD i 0 = c ∧ p.drop (i + 1) = rest ∧ i < p.length := by
  have hlt : i < p.length := by
    by_contra hge
    rw [List.drop_eq_nil_of_le (by omega)] at h
    exact List.noConfusion h
  refine ⟨?_, ?_, hlt⟩
  · have h0 : (p.drop i).getD 0 0 = c := by rw [h]; rfl
    rwa [List.getD_eq_getElem?_getD, List.getElem?_drop, Nat.add_zero,
      ← List.getD_eq_getElem?_getD] at h0
  · have : p.drop (i + 1) = (p.drop i).drop 1 := by
      rw [List.drop_drop, Nat.add_comm]
    rw [this, h, List.drop_one, List.tail_cons]

/-- Length of a byte-range slice whose end is in range. -/
theorem goSub_length (p : GoStr) (a b : Nat) (hb : b ≤ p.length) :
    (goSub p a b).length = b - a := by
  simp [goSub]
  omega

/-- Every byte of a byte-range slice is a byte of the string at a position
inside the range. -/
theorem mem_goSub (p : GoStr) (a b c : Nat) (hb : b ≤ p.length)
    (hc : c ∈ goSub p a b) :
    ∃ j, a ≤ j ∧ j < b ∧ p.getD j 0 = c := by
  obtain ⟨k, hk, he⟩ := List.mem_iff_getElem.mp hc
  have hklen : k < b - a := by
    have := hk
    simp [goSub] at this
    omega
  have hjlen : a + k < p.length := by omega
  refine ⟨a + k, by omega, by omega, ?_⟩
  have : (goSub p a b)[k] = p[a + k] := by
    simp [goSub]
  rw [this] at he
  rw [List.getD_eq_getElem?_getD, List.getElem?_eq_getElem hjlen]
  simpa using he

/-- Invariant of the accumulated parser output: every emitted segment is
non-empty, equals the byte range of the path at its recorded offset, and
contains no NUL, CR, LF or slash byte. -/
def partsInv (path : GoStr) (parts : List GoStr) (indices : List Nat) : Prop :=
  ∀ k, k < parts.length →
    parts.getD k [] ≠ [] ∧
    parts.getD k [] = goSub path (indices.getD k 0)
      (indices.getD k 0 + (parts.getD k []).length) ∧
    (∀ c ∈ parts.getD k [], isBadByte c = false ∧ c ≠ 47)

/-- Appending entries on the right preserves the parts invariant. -/
theorem partsInv_extend (path : GoStr) (parts : List GoStr)
    (indices extra : List Nat) (hlen : indices.length = parts.length)
    (hinv : partsInv path parts indices) :
    partsInv path parts (indices ++ extra) := by
  intro k hk
  rw [List.getD_append _ _ _ _ (by omega)]
  exact hinv k hk

/-- Pushing a freshly scanned segment with its offset preserves the parts
invariant, given that the scanned region holds only clean non-slash bytes. -/
theorem partsInv_push (path : GoStr) (parts : List GoStr)
    (indices : List Nat) (start i : Nat)
    (hlen : indices.length = parts.length)
    (hinv : partsInv path parts indices)
    (hstart : start < i) (hi : i ≤ path.length)
    (hg : ∀ j, start ≤ j → j < i →
      isBadByte (path.getD j 0) = false ∧ path.getD j 0 ≠ 47) :
    partsInv path (parts ++ [goSub path start i]) (indices ++ [start]) := by
  intro k hk
  rw [List.length_append, List.length_singleton] at hk
  by_cases hlt : k < parts.length
  · rw [List.getD_append _ _ _ _ hlt, List.getD_append _ _ _ _ (by omega)]
    exact hinv k hlt
  · have hke : k = parts.length := by omega
    subst hke
    rw [List.getD_append_right _ _ _ _ (by omega),
      List.getD_append_right _ _ _ _ (by omega), Nat.sub_self, hlen,
      Nat.sub_self]
    simp only [List.getD_cons_zero]
    have hlen2 : (goSub path start i).length = i - start := goSub_length _ _ _ hi
    refine ⟨?_, ?_, ?_⟩
    · intro hnil
      rw [hnil] at hlen2
      simp at hlen2
      omega
    · rw [hlen2]
      congr 1
      omega
    · intro c hc
      obtain ⟨j, hj1, hj2, hj3⟩ := mem_goSub path start i c hi hc
      exact hj3 ▸ hg j hj1 hj2

/-- Appending a strictly larger entry keeps the offsets strictly
increasing. -/
theorem chain_push (indices : List Nat) (v : Nat)
    (hc : indices.Chain' (· < ·)) (hall : ∀ x ∈ indices, x < v) :
    (indices ++ [v]).Chain' (· < ·) := by
  rw [List.chain'_append]
  refine ⟨hc, List.chain'_singleton v, ?_⟩
  intro x hx y hy
  simp only [List.head?_cons, Option.mem_def, Option.some.injEq] at hy
  subst hy
  exact hall x (List.mem_of_mem_getLast? hx)

/-- Generalized correctness of the scan loop of getPartsWithRaw: starting
from a consistent accumulator state, a successful scan produces strictly
increasing offsets of length segments + 1 ending in the path length, with
every segment equal to its recorded byte range and free of NUL/CR/LF and
slash bytes. -/
theorem getPartsScan_spec (path : GoStr) :
    ∀ (rest : GoStr) (i start : Nat) (parts : List GoStr)
      (indices : List Nat) (parts' : List GoStr) (indices' : List Nat),
      rest = path.drop i →
      i ≤ path.length →
      start ≤ i →
      (∀ j, start ≤ j → j < i →
        isBadByte (path.getD j 0) = false ∧ path.getD j 0 ≠ 47) →
      indices.length = parts.length →
      (∀ x ∈ indices, x < start) →
      indices.Chain' (· < ·) →
      partsInv path parts indices →
      getPartsScan path rest i start parts indices = some (parts', indices') →
      (indices'.Chain' (· < ·) ∧
       indices'.length = parts'.length + 1 ∧
       indices'.getLast? = some path.length ∧
       partsInv path parts' indices') := by
  intro rest
  induction rest with
  | nil =>
    intro i start parts indices parts' indices' hdrop hi hsi hg hlen hall hchain hinv hscan
    have hieq : i = path.length := by
      have := List.drop_eq_nil_iff.mp hdrop.symm
      omega
    subst hieq
    unfold getPartsScan at hscan
    by_cases hsn : start < path.length
    · rw [if_pos hsn] at hscan
      injection hscan with hscan
      injection hscan with hp hi2
      subst hp; subst hi2
      have hassoc : indices ++ [start, path.length] =
          (indices ++ [start]) ++ [path.length] := by simp
      have hall2 : ∀ x ∈ indices ++ [start], x < path.length := by
        intro x hx
        rcases List.mem_append.mp hx with hx | hx
        · exact lt_trans (hall x hx) hsn
        · simp at hx; omega
      refine ⟨?_, ?_, ?_, ?_⟩
      · rw [hassoc]
        exact chain_push _ _ (chain_push _ _ hchain hall) hall2
      · simp [hlen]
      · rw [hassoc, List.getLast?_concat]
      · have h1 := partsInv_push path parts indices start path.length hlen hinv
          hsn le_rfl hg
        have := partsInv_extend path (parts ++ [goSub path start path.length])
          (indices ++ [start]) [path.length] (by simp [hlen]) h1
        rwa [hassoc]
    · rw [if_neg hsn] at hscan
      injection hscan with hscan
      injection hscan with hp hi2
      subst hp; subst hi2
      refine ⟨?_, ?_, ?_, ?_⟩
      · exact chain_push _ _ hchain (fun x hx => by have := hall x hx; omega)
      · simp [hlen]
      · rw [List.getLast?_concat]
      · exact partsInv_extend path parts indices [path.length] hlen hinv
  | cons c rest ih =>
    intro i start parts indices parts' indices' hdrop hi hsi hg hlen hall hchain hinv hscan
    obtain ⟨hc, hrest, hilt⟩ := drop_cons_facts path i c rest hdrop.symm
    unfold getPartsScan at hscan
    by_cases hbad : isBadByte c
    · rw [if_pos hbad] at hscan
      exact Option.noConfusion hscan
    · rw [if_neg hbad] at hscan
      by_cases hslash : c = 47
      · rw [if_pos hslash] at hscan
        by_cases hpush : start < i
        · rw [if_pos hpush] at hscan
          refine ih (i + 1) (i + 1)
            (parts ++ [goSub path start i]) (indices ++ [start]) parts' indices'
            hrest.symm (by omega) le_rfl ?_ (by simp [hlen]) ?_
            (chain_push _ _ hchain hall)
            (partsInv_push path parts indices start i hlen hinv hpush
              (by omega) hg) hscan
          · intro j hj1 hj2
            omega
          · intro x hx
            rcases List.mem_append.mp hx with hx | hx
            · have := hall x hx; omega
            · simp at hx; omega
        · rw [if_neg hpush] at hscan
          refine ih (i + 1) (i + 1) parts indices parts' indices'
            hrest.symm (by omega) le_rfl ?_ hlen ?_ hchain hinv hscan
          · intro j hj1 hj2
            omega
          · intro x hx
            have := hall x hx; omega
      · rw [if_neg hslash] at hscan
        refine ih (i + 1) start parts indices parts' indices'
          hrest.symm (by omega) (by omega) ?_ hlen hall hchain hinv hscan
        intro j hj1 hj2
        by_cases hji : j < i
        · exact hg j hj1 hji
        · have hje : j = i := by omega
          subst hje
          rw [hc]
          exact ⟨by simpa using hbad, hslash⟩

/-! ### Registration-state lemmas (claim C3) -/

/-- Tests whether a node is an untouched interior node (a fresh trie root
or a freshly created child before any insertion below it). -/
def Node.isEmptyRoot (n : Node) : Bool :=
  n.pattern = [] ∧ n.handler = none ∧ n.staticChildren.isEmpty ∧
    (n.paramChild).isNone ∧ (n.wildChild).isNone

/-- Well-formedness of a segment list about to be inserted: as established
by the registration pre-checks, every segment is non-empty and clean, a
wildcard segment is last and carries a name, and a parameter segment
carries a name. -/
def partsOk : List GoStr → Prop
  | [] => True
  | p :: rest =>
    p ≠ [] ∧ (∀ c ∈ p, isBadByte c = false ∧ c ≠ 47) ∧
      (p.headI = 42 → 2 ≤ p.length ∧ rest = []) ∧
      (p.headI = 58 → 2 ≤ p.length) ∧ partsOk rest

/-- applyMiddlewares can only fail with the two middleware error kinds. -/
theorem applyMWrev_kinds (mws : List MW) (e : ErrKind)
    (h : applyMWrev mws = some e) :
    e = .nilMiddleware ∨ e = .middlewareNilHandler := by
  induction mws with
  | nil => exact Option.noConfusion h
  | cons mw rest ih =>
    cases mw with
    | valid => exact ih h
    | nilMW => injection h with h; exact Or.inl h.symm
    | returnsNil => injection h with h; exact Or.inr h.symm

/-- Looking up an association list key found by alookup yields a member. -/
theorem alookup_some_mem {α : Type} (l : List (GoStr × α)) (k : GoStr) (v : α)
    (h : alookup l k = some v) : (k, v) ∈ l := by
  induction l with
  | nil => exact Option.noConfusion h
  | cons e rest ih =>
    unfold alookup at h
    by_cases he : e.1 = k
    · rw [if_pos he] at h
      injection h with h
      subst h
      have hek : (k, e.2) = e := by rw [← he]
      rw [hek]
      exact List.mem_cons_self _ _
    · rw [if_neg he] at h
      exact List.mem_cons_of_mem _ (ih h)

/-- Re-storing the value alookup finds leaves the association list
unchanged. -/
theorem aset_self {α : Type} (l : List (GoStr × α)) (k : GoStr) (v : α)
    (h : alookup l k = some v) : aset l k v = l := by
  induction l with
  | nil => exact Option.noConfusion h
  | cons e rest ih =>
    unfold alookup at h
    unfold aset
    by_cases he : e.1 = k
    · rw [if_pos he] at h
      injection h with h
      subst h
      have hek : (k, e.2) = e := by rw [← he]
      simp [he, hek]
    · rw [if_neg he] at h
      simp [he, ih h]

/-- alookup after aset at the same key yields the stored value. -/
theorem alookup_aset {α : Type} (l : List (GoStr × α)) (k : GoStr) (v : α) :
    alookup (aset l k v) k = some v := by
  induction l with
  | nil => simp [aset, alookup]
  | cons e rest ih =>
    unfold aset
    by_cases he : e.1 = k
    · simp [alookup, he]
    · simp [alookup, he, ih]

/-- Re-storing the child childGet finds leaves the child list unchanged. -/
theorem childSet_self (l : List (GoStr × Node)) (part : GoStr) (c : Node)
    (h : childGet l part = some c) : childSet l part c = l := by
  induction l with
  | nil => exact Option.noConfusion h
  | cons e rest ih =>
    unfold childGet at h
    unfold childSet
    obtain ⟨k, n⟩ := e
    by_cases he : k = part
    · rw [if_pos he] at h
      injection h with h
      subst h
      simp [he]
    · rw [if_neg he] at h
      simp [he, ih h]

/-- childGet after childSet at the same key yields the stored child. -/
theorem childGet_childSet (l : List (GoStr × Node)) (part : GoStr) (c : Node) :
    childGet (childSet l part c) part = some c := by
  induction l with
  | nil => simp [childSet, childGet]
  | cons e rest ih =>
    unfold childSet
    obtain ⟨k, n⟩ := e
    by_cases he : k = part
    · simp [childGet, he]
    · simp [childGet, he, ih]

/-- Writing back the child that matchChildForInsert found leaves the node
unchanged (the functional image of Go's in-place child mutation). -/
theorem putChild_self (n : Node) (part : GoStr) (c : Node)
    (hp : part ≠ [])
    (h : n.matchChildForInsert part = some c) : n.putChild part c = n := by
  unfold Node.matchChildForInsert at h
  rw [if_neg hp] at h
  obtain ⟨pat, pt, sc, pc, wc, hd, hp2⟩ := n
  unfold Node.putChild
  dsimp only
  by_cases h58 : part.headI = 58
  · rw [if_pos h58] at h ⊢
    simp only [Node.paramChild] at h
    rw [h]
  · rw [if_neg h58] at h ⊢
    by_cases h42 : part.headI = 42
    · rw [if_pos h42] at h ⊢
      simp only [Node.wildChild] at h
      rw [h]
    · rw [if_neg h42] at h ⊢
      simp only [Node.staticChildren] at h
      simp [childSet_self _ _ _ h]

/-- After writing a child into its slot, matchChildForInsert finds it. -/
theorem matchChild_putChild (n : Node) (part : GoStr) (c : Node)
    (hp : part ≠ []) :
    (n.putChild part c).matchChildForInsert part = some c := by
  obtain ⟨pat, pt, sc, pc, wc, hd, hp2⟩ := n
  unfold Node.putChild Node.matchChildForInsert
  by_cases h58 : part.headI = 58
  · simp [h58, hp, Node.paramChild]
  · by_cases h42 : part.headI = 42
    · simp [h58, h42, hp, Node.wildChild]
    · simp [h58, h42, hp, Node.staticChildren, childGet_childSet]

/-- A byte that is clean and not a slash stays so under ASCII lowering. -/
theorem lowerByte_good (c : Nat) (h : isBadByte c = false ∧ c ≠ 47) :
    isBadByte (lowerByte c) = false ∧ lowerByte c ≠ 47 := by
  unfold lowerByte
  by_cases hc : 65 ≤ c ∧ c ≤ 90
  · rw [if_pos hc]
    simp [isBadByte]
    omega
  · rw [if_neg hc]
    exact h

/-- ASCII lowering never produces a colon or an asterisk from another
byte class. -/
theorem lowerByte_not_marker (c : Nat) (h : c ≠ 58 ∧ c ≠ 42) :
    lowerByte c ≠ 58 ∧ lowerByte c ≠ 42 := by
  unfold lowerByte
  by_cases hc : 65 ≤ c ∧ c ≤ 90
  · rw [if_pos hc]
    omega
  · rw [if_neg hc]
    exact h

/-- Head byte of a mapped non-empty list. -/
theorem headI_map_lowerByte (p : GoStr) (hp : p ≠ []) :
    (p.map lowerByte).headI = lowerByte p.headI := by
  cases p with
  | nil => exact absurd rfl hp
  | cons c rest => simp

/-- A segment list that passes validateParamNames and consists of clean
non-empty segments is well-formed for insertion. -/
theorem partsOk_of_validateAux (pattern : GoStr) :
    ∀ (parts : List GoStr) (seen : List GoStr) (i total : Nat),
      i + parts.length = total →
      (∀ part ∈ parts, part ≠ [] ∧ ∀ c ∈ part, isBadByte c = false ∧ c ≠ 47) →
      validateParamNamesAux pattern seen parts i total = none →
      partsOk parts := by
  intro parts
  induction parts with
  | nil => intro seen i total _ _ _; trivial
  | cons p rest ih =>
    intro seen i total htot hclean hval
    have hp := hclean p (List.mem_cons_self _ _)
    have hrestclean : ∀ part ∈ rest, part ≠ [] ∧
        ∀ c ∈ part, isBadByte c = false ∧ c ≠ 47 :=
      fun part hm => hclean part (List.mem_cons_of_mem _ hm)
    unfold validateParamNamesAux at hval
    rw [if_neg hp.1] at hval
    by_cases h42i : p.headI = 42 ∧ i ≠ total - 1
    · rw [if_pos h42i] at hval
      exact Option.noConfusion hval
    · rw [if_neg h42i] at hval
      have hrestnil : p.headI = 42 → rest = [] := by
        intro h42
        have hi : i = total - 1 := by
          by_contra hne
          exact h42i ⟨h42, hne⟩
        have : rest.length = 0 := by
          simp only [List.length_cons] at htot
          omega
        exact List.length_eq_zero.mp this
      by_cases hdyn : p.headI = 58 ∨ p.headI = 42
      · rw [if_pos hdyn] at hval
        by_cases hname : p.tail = []
        · rw [if_pos hname] at hval
          exact Option.noConfusion hval
        · rw [if_neg hname] at hval
          have hlen2 : 2 ≤ p.length := by
            cases p with
            | nil => exact absurd rfl hp.1
            | cons a t =>
              cases t with
              | nil => exact absurd rfl hname
              | cons b t2 => simp
          by_cases hseen : p.tail ∈ seen
          · rw [if_pos hseen] at hval
            exact Option.noConfusion hval
          · rw [if_neg hseen] at hval
            refine ⟨hp.1, hp.2, fun h42 => ⟨hlen2, hrestnil h42⟩,
              fun _ => hlen2, ?_⟩
            exact ih (p.tail :: seen) (i + 1) total
              (by simp only [List.length_cons] at htot ⊢; omega)
              hrestclean hval
      · rw [if_neg hdyn] at hval
        refine ⟨hp.1, hp.2, fun h42 => absurd (Or.inr h42) hdyn,
          fun h58 => absurd (Or.inl h58) hdyn, ?_⟩
        exact ih seen (i + 1) total
          (by simp only [List.length_cons] at htot ⊢; omega)
          hrestclean hval

/-- Wrapper over the validateParamNames entry point. -/
theorem partsOk_of_validate (parts : List GoStr) (pattern : GoStr)
    (hclean : ∀ part ∈ parts, part ≠ [] ∧
      ∀ c ∈ part, isBadByte c = false ∧ c ≠ 47)
    (hval : validateParamNames parts pattern = none) : partsOk parts :=
  partsOk_of_validateAux pattern parts [] 0 parts.length (by omega) hclean hval

/-- IgnoreCase lowering preserves insertion well-formedness. -/
theorem partsOk_lowerParts : ∀ parts, partsOk parts → partsOk (lowerParts parts) := by
  intro parts
  induction parts with
  | nil => intro _; trivial
  | cons p rest ih =>
    intro h
    obtain ⟨hp1, hp2, hp3, hp4, hp5⟩ := h
    show partsOk ((if isDyn p then p else lowerASCII p) :: lowerParts rest)
    by_cases hd : isDyn p
    · rw [if_pos hd]
      refine ⟨hp1, hp2, ?_, hp4, ih hp5⟩
      intro h42
      refine ⟨(hp3 h42).1, ?_⟩
      rw [(hp3 h42).2]
      rfl
    · rw [if_neg hd]
      have hmarks : p.headI ≠ 58 ∧ p.headI ≠ 42 := by
        simp only [isDyn, Bool.not_eq_true, decide_eq_false_iff_not] at hd
        push_neg at hd
        have := hd hp1
        exact ⟨this.1, this.2⟩
      rw [lowerASCII_eq_map]
      have hq1 : p.map lowerByte ≠ [] := by
        simp [hp1]
      have hqh : (p.map lowerByte).headI = lowerByte p.headI :=
        headI_map_lowerByte p hp1
      refine ⟨hq1, ?_, ?_, ?_, ih hp5⟩
      · intro c hc
        obtain ⟨c2, hc2, he⟩ := List.mem_map.mp hc
        exact he ▸ lowerByte_good c2 (hp2 c2 hc2)
      · intro h42
        rw [hqh] at h42
        exact absurd h42 (lowerByte_not_marker p.headI hmarks).2
      · intro h58
        rw [hqh] at h58
        exact absurd h58 (lowerByte_not_marker p.headI hmarks).1

/-- A clean non-empty part passes sanitizePart. -/
theorem sanitizePart_clean (p : GoStr) (hp : p ≠ [])
    (hc : ∀ c ∈ p, isBadByte c = false ∧ c ≠ 47) :
    sanitizePart p = none := by
  unfold sanitizePart
  rw [if_neg hp]
  have hany : p.any (fun c => decide (c = 47 ∨ c = 0 ∨ c = 13 ∨ c = 10)) = false := by
    rw [List.any_eq_false]
    intro c hcmem
    have h2 := hc c hcmem
    simp only [isBadByte, decide_eq_false_iff_not] at h2
    simp only [decide_eq_true_eq]
    tauto
  simp only [hany, Bool.false_eq_true, if_false]

/-- Inserting a pre-validated route below an untouched node always
succeeds. -/
theorem insert_fresh_ok :
    ∀ (rest : List GoStr) (pattern : GoStr) (height : Nat) (h : Nat)
      (rhp : Bool) (n : Node),
      n.isEmptyRoot = true →
      height + rest.length ≤ MaxDepth →
      partsOk rest →
      (n.insert pattern rest height (some h) rhp).2 = none := by
  intro rest
  induction rest with
  | nil =>
    intro pattern height h rhp n hfresh hdepth _
    obtain ⟨pat, pt, sc, pc, wc, hd, hp2⟩ := n
    simp only [Node.isEmptyRoot, Node.pattern, Node.handler, Node.staticChildren,
      Node.paramChild, Node.wildChild, Bool.decide_and, Bool.and_eq_true,
      decide_eq_true_eq, List.isEmpty_iff, Option.isNone_iff_eq_none] at hfresh
    simp [Node.insert, Node.pattern, hfresh.1, Nat.not_lt.mpr (by omega : height ≤ MaxDepth)]
  | cons p rest ih =>
    intro pattern height h rhp n hfresh hdepth hok
    obtain ⟨hp1, hp2, hp3, hp4, hp5⟩ := hok
    obtain ⟨pat, pt, sc, pc, wc, hd, hp2b⟩ := n
    simp only [Node.isEmptyRoot, Node.pattern, Node.handler, Node.staticChildren,
      Node.paramChild, Node.wildChild, Bool.decide_and, Bool.and_eq_true,
      decide_eq_true_eq, List.isEmpty_iff, Option.isNone_iff_eq_none] at hfresh
    obtain ⟨hf1, hf2, hf3, hf4, hf5⟩ := hfresh
    subst hf3; subst hf4; subst hf5
    have hnw : ¬(p ≠ [] ∧ p.headI = 42 ∧ rest ≠ []) := by
      rintro ⟨_, h42, hne⟩
      exact hne (hp3 h42).2
    have hn42 : ¬(p ≠ [] ∧ p.headI = 42 ∧ p.length = 1) := by
      rintro ⟨_, h42, hlen⟩
      have := (hp3 h42).1
      omega
    have hn58 : ¬(p ≠ [] ∧ p.headI = 58 ∧ p.length = 1) := by
      rintro ⟨_, h58, hlen⟩
      have := hp4 h58
      omega
    have hsan := sanitizePart_clean p hp1 hp2
    simp only [Node.insert, Nat.not_lt.mpr (by omega : height ≤ MaxDepth),
      if_false, hnw, hn42, hn58, hsan, Node.matchChildForInsert,
      Node.paramChild, Node.wildChild, Node.staticChildren, childGet,
      if_neg hp1]
    have hfreshp : (Node.fresh p).isEmptyRoot = true := by
      simp [Node.fresh, Node.isEmptyRoot, Node.pattern, Node.handler,
        Node.staticChildren, Node.paramChild, Node.wildChild]
    have hdepth2 : height + 1 + rest.length ≤ MaxDepth := by
      simp only [List.length_cons] at hdepth; omega
    by_cases h58 : p.headI = 58
    · simp only [h58]
      simp
      exact ih pattern (height + 1) h _ (Node.fresh p) hfreshp hdepth2 hp5
    · by_cases h42 : p.headI = 42
      · simp only [h58, h42]
        simp
        exact ih pattern (height + 1) h _ (Node.fresh p) hfreshp hdepth2 hp5
      · simp only [h58, h42]
        simp
        exact ih pattern (height + 1) h _ (Node.fresh p) hfreshp hdepth2 hp5

/-- An insertion that fails with any error leaves the trie exactly as it
was: every error either fires before a child is created or attached, or
propagates from an existing child that is itself left unchanged. -/
theorem insert_err_root_unchanged :
    ∀ (rest : List GoStr) (pattern : GoStr) (height : Nat) (h : Nat)
      (rhp : Bool) (n : Node) (e : ErrKind),
      height + rest.length ≤ MaxDepth →
      partsOk rest →
      (n.insert pattern rest height (some h) rhp).2 = some e →
      (n.insert pattern rest height (some h) rhp).1 = n := by
  intro rest
  induction rest with
  | nil =>
    intro pattern height h rhp n e hdepth _ herr
    obtain ⟨pat, pt, sc, pc, wc, hd, hp2b⟩ := n
    simp only [Node.insert, Nat.not_lt.mpr (by omega : height ≤ MaxDepth),
      if_false, Node.pattern] at herr ⊢
    by_cases hpat : pat ≠ []
    · simp [hpat]
    · simp only [hpat, if_false] at herr ⊢
      exact Option.noConfusion herr
  | cons p rest ih =>
    intro pattern height h rhp n e hdepth hok herr
    obtain ⟨hp1, hp2, hp3, hp4, hp5⟩ := hok
    have hnw : ¬(p ≠ [] ∧ p.headI = 42 ∧ rest ≠ []) := by
      rintro ⟨_, h42, hne⟩
      exact hne (hp3 h42).2
    have hn42 : ¬(p ≠ [] ∧ p.headI = 42 ∧ p.length = 1) := by
      rintro ⟨_, h42, hlen⟩
      have := (hp3 h42).1
      omega
    have hn58 : ¬(p ≠ [] ∧ p.headI = 58 ∧ p.length = 1) := by
      rintro ⟨_, h58, hlen⟩
      have := hp4 h58
      omega
    have hsan := sanitizePart_clean p hp1 hp2
    have hdepth2 : height + 1 + rest.length ≤ MaxDepth := by
      simp only [List.length_cons] at hdepth; omega
    simp only [Node.insert, Nat.not_lt.mpr (by omega : height ≤ MaxDepth),
      if_false, hnw, hn42, hn58, hsan] at herr ⊢
    cases hmc : n.matchChildForInsert p with
    | some c =>
      simp only [hmc] at herr ⊢
      by_cases hc1 : p ≠ [] ∧ p.headI = 58 ∧ c.part ≠ p
      · simp [hc1]
      · simp only [hc1, if_false] at herr ⊢
        by_cases hc2 : p ≠ [] ∧ p.headI = 42 ∧ c.part ≠ p
        · simp [hc2]
        · simp only [hc2, if_false] at herr ⊢
          have hchild := ih pattern (height + 1) h _ c e hdepth2 hp5 herr
          rw [hchild]
          exact putChild_self n p c hp1 hmc
    | none =>
      simp only [hmc] at herr ⊢
      by_cases hc1 : p.headI = 58 ∧ (n.wildChild).isSome
      · simp [hc1]
      · simp only [hc1, if_false] at herr ⊢
        by_cases hc2 : p.headI = 42 ∧ (n.paramChild).isSome
        · simp [hc2]
        · simp only [hc2, if_false] at herr ⊢
          have hfreshp : (Node.fresh p).isEmptyRoot = true := by
            simp [Node.fresh, Node.isEmptyRoot, Node.pattern, Node.handler,
              Node.staticChildren, Node.paramChild, Node.wildChild]
          have := insert_fresh_ok rest pattern (height + 1) h
            (decide (rhp = true ∨ p ≠ [] ∧ (p.headI = 58 ∨ p.headI = 42)))
            (Node.fresh p) hfreshp hdepth2 hp5
          rw [this] at herr
          exact Option.noConfusion herr

/-- Descends the trie along the exact child slots insert fills, returning
the stored handler and full pattern at the end of the descent. -/
def routeAt : Node → List GoStr → Option (Nat × GoStr)
  | n, [] =>
    match n.handler with
    | some h => some (h, n.pattern)
    | none => none
  | n, p :: rest =>
    match n.matchChildForInsert p with
    | some c => routeAt c rest
    | none => none

/-- A successful insertion makes the route reachable: following the
inserted segments finds the attached handler and pattern. -/
theorem insert_ok_routeAt :
    ∀ (rest : List GoStr) (pattern : GoStr) (height : Nat) (h : Nat)
      (rhp : Bool) (n : Node),
      (n.insert pattern rest height (some h) rhp).2 = none →
      routeAt (n.insert pattern rest height (some h) rhp).1 rest =
        some (h, pattern) := by
  intro rest
  induction rest with
  | nil =>
    intro pattern height h rhp n hsucc
    obtain ⟨pat, pt, sc, pc, wc, hd, hp2b⟩ := n
    by_cases hdepth : height > MaxDepth
    · simp only [Node.insert, if_pos hdepth] at hsucc
      exact Option.noConfusion hsucc
    · simp only [Node.insert, if_neg hdepth, Node.pattern] at hsucc ⊢
      by_cases hpat : pat ≠ []
      · rw [if_pos hpat] at hsucc
        exact Option.noConfusion hsucc
      · rw [if_neg hpat] at hsucc ⊢
        simp [routeAt, Node.handler, Node.pattern]
  | cons p rest ih =>
    intro pattern height h rhp n hsucc
    by_cases hdepth : height > MaxDepth
    · simp only [Node.insert, if_pos hdepth] at hsucc
      exact Option.noConfusion hsucc
    · simp only [Node.insert, if_neg hdepth] at hsucc ⊢
      by_cases hg1 : p ≠ [] ∧ p.headI = 42 ∧ rest ≠ []
      · rw [if_pos hg1] at hsucc
        exact Option.noConfusion hsucc
      · rw [if_neg hg1] at hsucc ⊢
        by_cases hg2 : p ≠ [] ∧ p.headI = 42 ∧ p.length = 1
        · rw [if_pos hg2] at hsucc
          exact Option.noConfusion hsucc
        · rw [if_neg hg2] at hsucc ⊢
          by_cases hg3 : p ≠ [] ∧ p.headI = 58 ∧ p.length = 1
          · rw [if_pos hg3] at hsucc
            exact Option.noConfusion hsucc
          · rw [if_neg hg3] at hsucc ⊢
            cases hsan : sanitizePart p with
            | some e2 =>
              simp only [hsan] at hsucc
              exact Option.noConfusion hsucc
            | none =>
              simp only [hsan] at hsucc ⊢
              have hp1 : p ≠ [] := by
                intro hnil
                rw [hnil] at hsan
                simp [sanitizePart] at hsan
              cases hmc : n.matchChildForInsert p with
              | some c =>
                simp only [hmc] at hsucc ⊢
                by_cases hc1 : p ≠ [] ∧ p.headI = 58 ∧ c.part ≠ p
                · rw [if_pos hc1] at hsucc
                  exact Option.noConfusion hsucc
                · rw [if_neg hc1] at hsucc ⊢
                  by_cases hc2 : p ≠ [] ∧ p.headI = 42 ∧ c.part ≠ p
                  · rw [if_pos hc2] at hsucc
                    exact Option.noConfusion hsucc
                  · rw [if_neg hc2] at hsucc ⊢
                    unfold routeAt
                    rw [matchChild_putChild n p _ hp1]
                    exact ih pattern (height + 1) h _ c hsucc
              | none =>
                simp only [hmc] at hsucc ⊢
                by_cases hc1 : p.headI = 58 ∧ (n.wildChild).isSome
                · rw [if_pos hc1] at hsucc
                  exact Option.noConfusion hsucc
                · rw [if_neg hc1] at hsucc ⊢
                  by_cases hc2 : p.headI = 42 ∧ (n.paramChild).isSome
                  · rw [if_pos hc2] at hsucc
                    exact Option.noConfusion hsucc
                  · rw [if_neg hc2] at hsucc ⊢
                    unfold routeAt
                    rw [matchChild_putChild n p _ hp1]
                    exact ih pattern (height + 1) h _ (Node.fresh p) hsucc

/-- Every segment the parser emits is non-empty and contains no NUL, CR,
LF or slash byte (used to justify that re-inserting parsed segments never
trips the trie's sanitation checks). -/
theorem getParts_parts_clean (p : GoStr) (segs : PathSegments)
    (h : getParts p = some segs) :
    ∀ part ∈ segs.parts, part ≠ [] ∧
      ∀ c ∈ part, isBadByte c = false ∧ c ≠ 47 := by
  unfold getParts getPartsWithRaw at h
  cases hscan : getPartsScan p p 0 0 [] [] with
  | none => rw [hscan] at h; exact Option.noConfusion h
  | some pr =>
    rw [hscan] at h
    obtain ⟨parts, indices⟩ := pr
    injection h with h
    subst h
    have hspec := getPartsScan_spec p p 0 0 [] [] parts indices
      (List.drop_zero p).symm (Nat.zero_le _) le_rfl
      (fun j hj1 hj2 => by omega) rfl (fun x hx => by cases hx)
      List.chain'_nil (fun k hk => by cases hk) hscan
    intro part hpart
    obtain ⟨k, hk, he⟩ := List.mem_iff_getElem.mp hpart
    have hgd : parts.getD k [] = part := by
      rw [List.getD_eq_getElem?_getD, List.getElem?_eq_getElem hk]
      simpa using he
    have := hspec.2.2.2 k hk
    rw [hgd] at this
    exact ⟨this.1, this.2.2⟩

/-- Erroring insertion at a method root (as handle performs it: looked up
or fresh) leaves the root table unchanged. -/
theorem insert_at_root_err {roots : List (GoStr × Node)} {method MPat : GoStr}
    {MP : List GoStr} {h0 : Nat} {HP : Bool} {e : ErrKind}
    (hlen : 0 + MP.length ≤ MaxDepth) (hps : partsOk MP)
    (herr : (((alookup roots method).getD
        (Node.mk [] [] [] none none none false)).insert MPat MP 0 (some h0)
        HP).2 = some e) :
    aset roots method (((alookup roots method).getD
        (Node.mk [] [] [] none none none false)).insert MPat MP 0 (some h0)
        HP).1 = roots := by
  cases halk : alookup roots method with
  | none =>
    have hroot : (alookup roots method).getD
        (Node.mk [] [] [] none none none false) =
        Node.mk [] [] [] none none none false := by rw [halk]; rfl
    rw [hroot] at herr
    rw [insert_fresh_ok MP MPat 0 h0 HP
      (Node.mk [] [] [] none none none false) rfl hlen hps] at herr
    exact Option.noConfusion herr
  | some root =>
    have hroot : (alookup roots method).getD
        (Node.mk [] [] [] none none none false) = root := by rw [halk]; rfl
    rw [hroot] at herr
    simp only [Option.getD_some]
    rw [insert_err_root_unchanged MP MPat 0 h0 HP root e hlen hps herr]
    exact aset_self roots method root halk

/-- On a table whose roots are all untouched, insertion never errors. -/
theorem insert_at_root_empty_no_err {roots : List (GoStr × Node)}
    {method MPat : GoStr} {MP : List GoStr} {h0 : Nat} {HP : Bool} {e : ErrKind}
    (hall : List.all roots (fun en => en.2.isEmptyRoot) = true)
    (hlen : 0 + MP.length ≤ MaxDepth) (hps : partsOk MP)
    (herr : (((alookup roots method).getD
        (Node.mk [] [] [] none none none false)).insert MPat MP 0 (some h0)
        HP).2 = some e) : False := by
  cases halk : alookup roots method with
  | none =>
    have hroot : (alookup roots method).getD
        (Node.mk [] [] [] none none none false) =
        Node.mk [] [] [] none none none false := by rw [halk]; rfl
    rw [hroot] at herr
    rw [insert_fresh_ok MP MPat 0 h0 HP
      (Node.mk [] [] [] none none none false) rfl hlen hps] at herr
    exact Option.noConfusion herr
  | some root =>
    have hroot : (alookup roots method).getD
        (Node.mk [] [] [] none none none false) = root := by rw [halk]; rfl
    rw [hroot] at herr
    have hm := alookup_some_mem roots method root halk
    have hre : root.isEmptyRoot = true := by
      simpa using List.all_eq_true.mp hall (method, root) hm
    rw [insert_fresh_ok MP MPat 0 h0 HP root hre hlen hps] at herr
    exact Option.noConfusion herr

/-- The IgnoreCase value a registration call will latch or read. -/
def effectiveIgnoreCase (st : RouterState) : Bool :=
  if st.ignoreCaseSet then st.ignoreCaseEnabled else st.IgnoreCase

/-- Segment list a successful Handle call inserts for a pattern (the parsed
segments, lowercased outside parameter and wildcard tokens when IgnoreCase
is in effect). -/
def registeredParts (st : RouterState) (pattern : GoStr) : List GoStr :=
  let segs := (getParts (cleanPath pattern)).getD ⟨[], [], [], []⟩
  if effectiveIgnoreCase st then lowerParts segs.parts else segs.parts

/-- Full pattern a successful Handle call stores at the inserted leaf. -/
def registeredPattern (st : RouterState) (pattern : GoStr) : GoStr :=
  let cleaned := cleanPath pattern
  let segs := (getParts cleaned).getD ⟨[], [], [], []⟩
  if effectiveIgnoreCase st then
    if lowerParts segs.parts = [] then gs "/"
    else (47 :: joinSep 47 (lowerParts segs.parts)) ++
      (if cleaned.length > 1 ∧ cleaned.getLast? = some 47 then [47] else [])
  else cleaned

/-- Reachable-state invariant of the router: once any route is present the
IgnoreCase latch is set, because every route insertion is preceded by the
latch write inside handle; a router with no routes has only untouched
roots. NewRouter satisfies the invariant, and handle preserves it. -/
def RouterState.inv (st : RouterState) : Prop :=
  st.ignoreCaseSet = true ∨
    st.table.roots.all (fun e => e.2.isEmptyRoot) = true

/-- C3: a Handle call that fails with any of the registration error kinds
(every kind except the two middleware-composition errors, which the claim
does not enumerate) leaves the router state completely unchanged — no trie
node, static-map entry, allow-cache entry, counter or flag differs — and a
nil error means the pattern is fully inserted: the trie root for the method
then stores the composed handler under the registered segments with the
registered pattern. Stated under the reachable-state invariant. -/
theorem handle_error_preserves_state (st : RouterState)
    (method pattern : GoStr) (handler : Option Nat) (hinv : st.inv) :
    (∀ e, (handle st method pattern handler).2 = some e →
       e ≠ .nilMiddleware → e ≠ .middlewareNilHandler →
       (handle st method pattern handler).1 = st) ∧
    ((handle st method pattern handler).2 = none →
       ∃ h root, handler = some h ∧
         alookup (handle st method pattern handler).1.table.roots method =
           some root ∧
         routeAt root (registeredParts st pattern) =
           some (h, registeredPattern st pattern)) := by
  cases handler with
  | none =>
    have heq : handle st method pattern none = (st, some .nilHandler) := by
      simp [handle]
    rw [heq]
    exact ⟨fun e he _ _ => rfl, fun hnone => Option.noConfusion hnone⟩
  | some h0 =>
    by_cases hvm : isValidMethod method
    case neg =>
      have heq : handle st method pattern (some h0) = (st, some .invalidMethod) := by
        simp [handle, hvm]
      rw [heq]
      exact ⟨fun e he _ _ => rfl, fun hnone => Option.noConfusion hnone⟩
    case pos =>
    by_cases hcp : cleanPath pattern ≠ pattern
    case pos =>
      have heq : handle st method pattern (some h0) = (st, some .nonCanonical) := by
        simp [handle, hvm, hcp]
      rw [heq]
      exact ⟨fun e he _ _ => rfl, fun hnone => Option.noConfusion hnone⟩
    case neg =>
    by_cases hlong : (cleanPath pattern).length > MaxPathLength
    case pos =>
      have heq : handle st method pattern (some h0) = (st, some .patternTooLong) := by
        simp [handle, hvm, hcp, hlong]
      rw [heq]
      exact ⟨fun e he _ _ => rfl, fun hnone => Option.noConfusion hnone⟩
    case neg =>
    cases hgp : getParts (cleanPath pattern) with
    | none =>
      have heq : handle st method pattern (some h0) = (st, some .invalidPath) := by
        simp [handle, hvm, hcp, hlong, hgp]
      rw [heq]
      exact ⟨fun e he _ _ => rfl, fun hnone => Option.noConfusion hnone⟩
    | some segs =>
    by_cases hdeep : segs.parts.length > MaxDepth
    case pos =>
      have heq : handle st method pattern (some h0) = (st, some .routeTooDeep) := by
        simp [handle, hvm, hcp, hlong, hgp, hdeep]
      rw [heq]
      exact ⟨fun e he _ _ => rfl, fun hnone => Option.noConfusion hnone⟩
    case neg =>
    cases hval : validateParamNames segs.parts (cleanPath pattern) with
    | some e0 =>
      have heq : handle st method pattern (some h0) = (st, some e0) := by
        simp [handle, hvm, hcp, hlong, hgp, hdeep, hval]
      rw [heq]
      exact ⟨fun e he _ _ => rfl, fun hnone => Option.noConfusion hnone⟩
    | none =>
    -- pre-checks passed: the latch is written, then middleware composition
    -- and the trie insertion run
    have hps0 : partsOk segs.parts :=
      partsOk_of_validate segs.parts (cleanPath pattern)
        (getParts_parts_clean _ _ hgp) hval
    have hmps : partsOk (if effectiveIgnoreCase st then lowerParts segs.parts
        else segs.parts) := by
      by_cases hic : effectiveIgnoreCase st
      · rw [if_pos hic]; exact partsOk_lowerParts _ hps0
      · rw [if_neg hic]; exact hps0
    have hlenmp : (if effectiveIgnoreCase st then lowerParts segs.parts
        else segs.parts).length ≤ MaxDepth := by
      by_cases hic : effectiveIgnoreCase st
      · rw [if_pos hic]
        simp only [lowerParts, List.length_map]
        omega
      · rw [if_neg hic]; omega
    obtain ⟨tbl, mws, rc, icSet, icEn, ic⟩ := st
    obtain ⟨roots, statics, sAllow, hParams, anyP, hTrail⟩ := tbl
    cases hmw : (if mws ≠ [] then applyMiddlewares mws else none) with
    | some e0 =>
      have hkind : e0 = .nilMiddleware ∨ e0 = .middlewareNilHandler := by
        by_cases hmnil : mws = []
        · rw [if_neg (by simp [hmnil])] at hmw
          exact Option.noConfusion hmw
        · rw [if_pos hmnil] at hmw
          exact applyMWrev_kinds _ _ hmw
      have heq : handle ⟨⟨roots, statics, sAllow, hParams, anyP, hTrail⟩, mws, rc,
          icSet, icEn, ic⟩ method pattern (some h0) =
          (⟨⟨roots, statics, sAllow, hParams, anyP, hTrail⟩, mws, rc, true,
            (if icSet then icEn else ic), ic⟩, some e0) := by
        simp only [handle, hvm, hcp, hlong, hgp, hdeep, hval]
        simp [hmw]
      rw [heq]
      constructor
      · intro e he h1 h2
        injection he with he
        subst he
        rcases hkind with hk | hk <;> [exact absurd hk h1; exact absurd hk h2]
      · intro hnone
        exact Option.noConfusion hnone
    | none =>
      have hinv2 : icSet = true ∨
          List.all roots (fun en => en.2.isEmptyRoot) = true := hinv
      have hmps2 : partsOk (if (if icSet = true then icEn else ic) = true
          then lowerParts segs.parts else segs.parts) := hmps
      have hlen2 : (0 : Nat) + (if (if icSet = true then icEn else ic) = true
          then lowerParts segs.parts else segs.parts).length ≤ MaxDepth := by
        rw [Nat.zero_add]; exact hlenmp
      have hparts : registeredParts ⟨⟨roots, statics, sAllow, hParams, anyP,
          hTrail⟩, mws, rc, icSet, icEn, ic⟩ pattern =
          (if (if icSet = true then icEn else ic) = true
           then lowerParts segs.parts else segs.parts) := by
        simp only [registeredParts, effectiveIgnoreCase, hgp, Option.getD_some]
      have hpat : registeredPattern ⟨⟨roots, statics, sAllow, hParams, anyP,
          hTrail⟩, mws, rc, icSet, icEn, ic⟩ pattern =
          (if (if icSet = true then icEn else ic) = true then
            (if (if (if icSet = true then icEn else ic) = true
                 then lowerParts segs.parts else segs.parts) = [] then gs "/"
             else (47 :: joinSep 47 (if (if icSet = true then icEn else ic) =
                 true then lowerParts segs.parts else segs.parts)) ++
               (if (cleanPath pattern).length > 1 ∧
                   (cleanPath pattern).getLast? = some 47 then [47] else []))
           else cleanPath pattern) := by
        by_cases hX : (if icSet = true then icEn else ic) = true
        · simp [registeredPattern, effectiveIgnoreCase, hgp, hX]
        · simp [registeredPattern, effectiveIgnoreCase, hgp, hX]
      simp only [handle]
      rw [if_neg (show ¬((some h0 : Option Nat) = none) by simp)]
      rw [if_neg (show ¬(¬isValidMethod method = true) by simp [hvm])]
      rw [if_neg hcp, if_neg hlong]
      simp only [hgp]
      rw [if_neg hdeep]
      simp only [hval]
      simp only [hmw]
      split
      next e1 heq =>
        constructor
        · intro e he h1 h2
          have he2 : e1 = e := by simpa using he
          subst he2
          rcases hinv2 with hlatch | hempty
          · subst hlatch
            rw [insert_at_root_err hlen2 hmps2 heq]
            simp
          · exact (insert_at_root_empty_no_err hempty hlen2 hmps2 heq).elim
        · intro hnone
          simp at hnone
      next heq =>
        constructor
        · intro e he h1 h2
          simp at he
        · intro hnone
          rw [hparts, hpat]
          simp only [apply_ite RTable.roots, ite_self]
          exact ⟨h0, _, rfl, alookup_aset _ _ _,
            insert_ok_routeAt _ _ _ _ _ _ heq⟩

/-- Router state with GET /a registered by the first Handle call. -/
def stC3 : RouterState :=
  (handle RouterState.empty mGET (gs "/a") (some 1)).1

/-- Witness for C3: on the reachable state with GET /a already registered,
a second GET /a registration fails with duplicateRoute and leaves the
router state exactly unchanged. -/
theorem handle_error_preserves_state_witness :
    stC3.inv ∧
    (handle stC3 mGET (gs "/a") (some 2)).2 = some .duplicateRoute ∧
    (handle stC3 mGET (gs "/a") (some 2)).1 = stC3 :=
  ⟨Or.inl (by decide),
   by decide,
   (handle_error_preserves_state stC3 mGET (gs "/a") (some 2)
       (Or.inl (by decide))).1 .duplicateRoute (by decide) (by decide)
     (by decide)⟩

/-! ## Claim theorems -/

/-- Leaf for the static route /files/new (handler 1). -/
def prioLeafNew : Node := .mk (gs "/files/new") (gs "new") [] none none (some 1) false

/-- Leaf for the parameter route /files/:name (handler 2). -/
def prioLeafParam : Node := .mk (gs "/files/:name") (gs ":name") [] none none (some 2) true

/-- Leaf for the catch-all route /files/*rest (handler 3). -/
def prioLeafWild : Node := .mk (gs "/files/*rest") (gs "*rest") [] none none (some 3) true

/-- Interior node with overlapping static, parameter and wildcard children
at the same level. -/
def prioNode : Node :=
  .mk [] (gs "files") [(gs "new", prioLeafNew)] (some prioLeafParam)
    (some prioLeafWild) none false

/-- Parsed segments of a concrete path (total wrapper for witnesses). -/
def segsOf (p : String) : PathSegments :=
  (getParts (gs p)).getD ⟨[], [], [], []⟩



/-- Concrete router for the C1 counterexample: one parametric route
GET /users/:id on a default-configured router (StrictSlash true). -/
def c1router : RouterState :=
  (handle RouterState.empty mGET (gs "/users/:id") (some 1)).1

/-- Frozen copy of the C1 router (Freeze clones flags and tables). -/
def c1frozen : FTable := freezeTable c1router.table

/-- Default dispatch configuration: StrictSlash true, no overrides. -/
def cfgDefault : DispatchCfg := ⟨true, none, none⟩

/-- C1: the frozen router does NOT reproduce the mutable router observably.
With only GET /users/:id registered, the request PUT /users/42 (host empty,
path already canonical, so both routers derive the same route context shown
in the last conjunct) makes the mutable router answer 405 with
Allow: GET, HEAD, OPTIONS — its alternate-slash step is fast-skipped because
no registered pattern has a trailing slash — while the frozen router, which
lacks that fast-skip, answers 308 with Location /users/42/ (and on
/users/42/ it redirects straight back, a loop). Status, Allow and Location
all differ, refuting frozen/mutable parity as stated. -/
theorem frozen_parity_divergence :
    dispatch cfgDefault c1router.table [] [] ⟨mPUT, gs "/users/42", gs "/users/42"⟩ =
      .mna (gs "GET, HEAD, OPTIONS") ∧
    fDispatch cfgDefault c1frozen [] [] ⟨mPUT, gs "/users/42", gs "/users/42"⟩ =
      .redirect 308 (gs "/users/42/") ∧
    fDispatch cfgDefault c1frozen [] [] ⟨mPUT, gs "/users/42/", gs "/users/42/"⟩ =
      .redirect 308 (gs "/users/42") ∧
    dispatch cfgDefault c1router.table [] [] ⟨mPUT, gs "/users/42/", gs "/users/42/"⟩ =
      .redirect 308 (gs "/users/42") ∧
    prepareRouteContext mPUT (gs "/users/42") [] false false false =
      .inl ⟨mPUT, gs "/users/42", gs "/users/42"⟩ ∧
    (Resp.mna (gs "GET, HEAD, OPTIONS") ≠ .redirect 308 (gs "/users/42/")) := by
  refine ⟨?_, ?_, ?_, ?_, ?_, ?_⟩ <;> decide

/-- Witness for C2: at the overlapping (new, :name, *rest) level, the
segment "new" dispatches to the static leaf; segment "xyz" misses the
static child and dispatches to the parameter leaf; the two-segment
remainder "a/b" misses both and falls to the wildcard leaf. -/
theorem trie_child_priority_witness :
    ((staticAttempt searchFuel prioNode (segsOf "/files/new") 1 ⟨[], []⟩).1.isSome = true ∧
     Node.search (searchFuel + 1) prioNode (segsOf "/files/new") 1 (some ⟨[], []⟩) =
       staticAttempt searchFuel prioNode (segsOf "/files/new") 1 ⟨[], []⟩) ∧
    ((staticAttempt searchFuel prioNode (segsOf "/files/xyz") 1 ⟨[], []⟩).1.isSome = false ∧
     Node.search (searchFuel + 1) prioNode (segsOf "/files/xyz") 1 (some ⟨[], []⟩) =
       paramAttempt searchFuel prioNode (segsOf "/files/xyz") 1 ⟨[], []⟩) ∧
    ((paramAttempt searchFuel prioNode (segsOf "/files/a/b") 1 ⟨[], []⟩).1.isSome = false ∧
     Node.search (searchFuel + 1) prioNode (segsOf "/files/a/b") 1 (some ⟨[], []⟩) =
       wildAttempt searchFuel prioNode (segsOf "/files/a/b") 1 ⟨[], []⟩) := by
  refine ⟨⟨by decide, ?_⟩, ⟨by decide, ?_⟩, ⟨by decide, ?_⟩⟩
  · exact (trie_child_priority searchFuel prioNode (segsOf "/files/new") 1
      ⟨[], []⟩ rfl (by decide) (by decide) (by decide)).1 (by decide)
  · exact (trie_child_priority searchFuel prioNode (segsOf "/files/xyz") 1
      ⟨[], []⟩ rfl (by decide) (by decide) (by decide)).2.1
      (Option.not_isSome_iff_eq_none.mp (by decide)) (by decide)
  · exact (trie_child_priority searchFuel prioNode (segsOf "/files/a/b") 1
      ⟨[], []⟩ rfl (by decide) (by decide) (by decide)).2.2
      (Option.not_isSome_iff_eq_none.mp (by decide))
      (Option.not_isSome_iff_eq_none.mp (by decide))

/-- C6: every record the segment parser accepts satisfies the claimed
invariants: the stored path is the parsed path, the offsets are strictly
increasing with length segments + 1 and final element equal to the path
length, and every segment equals the byte range of the stored path starting
at its offset. -/
theorem getParts_record_invariants (p : GoStr) (segs : PathSegments)
    (h : getParts p = some segs) :
    segs.path = p ∧ segs.matchPath = p ∧
    segs.indices.Chain' (· < ·) ∧
    segs.indices.length = segs.parts.length + 1 ∧
    segs.indices.getLast? = some p.length ∧
    ∀ k, k < segs.parts.length →
      segs.parts.getD k [] =
        goSub segs.path (segs.indices.getD k 0)
          (segs.indices.getD k 0 + (segs.parts.getD k []).length) := by
  unfold getParts getPartsWithRaw at h
  cases hscan : getPartsScan p p 0 0 [] [] with
  | none => rw [hscan] at h; exact Option.noConfusion h
  | some pr =>
    rw [hscan] at h
    obtain ⟨parts, indices⟩ := pr
    injection h with h
    subst h
    have hspec := getPartsScan_spec p p 0 0 [] [] parts indices
      (List.drop_zero p).symm (Nat.zero_le _) le_rfl
      (fun j hj1 hj2 => by omega) rfl (fun x hx => by cases hx)
      List.chain'_nil (fun k hk => by cases hk) hscan
    refine ⟨rfl, rfl, hspec.1, hspec.2.1, hspec.2.2.1, ?_⟩
    intro k hk
    exact (hspec.2.2.2 k hk).2.1

/-- Concrete parsed record for the C6 witness. -/
def segsW : PathSegments := segsOf "/a/bc//d/"

/-- Witness for C6: the record parsed from /a/bc//d/ satisfies every
invariant (segments a, bc, d at offsets 1, 3, 7 with sentinel 9). -/
theorem getParts_record_invariants_witness :
    getParts (gs "/a/bc//d/") = some segsW ∧
    (segsW.path = gs "/a/bc//d/" ∧ segsW.matchPath = gs "/a/bc//d/" ∧
     segsW.indices.Chain' (· < ·) ∧
     segsW.indices.length = segsW.parts.length + 1 ∧
     segsW.indices.getLast? = some (gs "/a/bc//d/").length ∧
     ∀ k, k < segsW.parts.length →
       segsW.parts.getD k [] =
         goSub segsW.path (segsW.indices.getD k 0)
           (segsW.indices.getD k 0 + (segsW.parts.getD k []).length)) :=
  ⟨by decide, getParts_record_invariants _ _ (by decide)⟩

/-- C4: consumeBatch in src/logger/ringbuffer.go silently swallows every
handler panic — it returns normally for every handler outcome, including a
panicking one — whereas the specification-mandated policy forwards the
panic value to a configured PanicHandler and otherwise rethrows it. The
shipped RingBuffer has no PanicHandler field at all, so the swallow is
unconditional. -/
theorem consumeBatch_swallows_panic :
    (∀ (handler : List LogEvent → Except Nat Unit) (batch : List LogEvent),
       consumeBatch handler batch = .ok ()) ∧
    consumeBatch (fun _ => .error 42) [] = .ok () ∧
    consumeBatchMandated false (fun _ => .error 42) [] = (none, .error 42) ∧
    consumeBatchMandated true (fun _ => .error 42) [] = (some 42, .ok ()) := by
  refine ⟨?_, rfl, rfl, rfl⟩
  intro handler batch
  unfold consumeBatch recoverDiscard
  cases handler batch with
  | ok u => rfl
  | error v => rfl

/-- Well-formedness of a sequential ring-buffer state: bounded occupancy,
sized arrays, and slots READY exactly on the residues of the in-flight
interval [tail, head). Every state reached from a fresh buffer by
sequential tryWrite / consumeStep runs satisfies this. -/
def RB.wf (rb : RB) : Prop :=
  rb.state.length = rb.cap ∧ rb.data.length = rb.cap ∧
  rb.tail ≤ rb.head ∧ rb.head - rb.tail ≤ rb.cap ∧
  (∀ i, i < rb.cap →
    (rb.state.getD i 0 = slotEmpty ∨ rb.state.getD i 0 = slotReady)) ∧
  ∀ i, i < rb.cap →
    (rb.state.getD i 0 = slotReady ↔
      ∃ j < rb.head, rb.tail ≤ j ∧ j % rb.cap = i)

/-- The capacity-2 buffer after two writes (C5 scenario). -/
def rbTwo : RB :=
  (((newRingBuffer 2).getD ⟨0, 0, 0, [], [], false⟩).tryWrite
      ⟨gs "e1", [], [], 0, 0⟩).2.tryWrite ⟨gs "e2", [], [], 0, 0⟩ |>.2

/-- C5: TryWrite returns false exactly when the buffer is closed or full
(head - tail at capacity) at the attempt; and on a capacity-2 buffer two
writes succeed, the third fails, and the consumer then receives exactly the
first two events in reservation order. -/
theorem tryWrite_false_iff_closed_or_full :
    (∀ (rb : RB) (ev : LogEvent), rb.wf →
       ((rb.tryWrite ev).1 = false ↔
         (rb.closed = true ∨ rb.cap ≤ rb.head - rb.tail))) ∧
    ((((newRingBuffer 2).getD ⟨0, 0, 0, [], [], false⟩).tryWrite
        ⟨gs "e1", [], [], 0, 0⟩).1 = true ∧
     ((((newRingBuffer 2).getD ⟨0, 0, 0, [], [], false⟩).tryWrite
        ⟨gs "e1", [], [], 0, 0⟩).2.tryWrite ⟨gs "e2", [], [], 0, 0⟩).1 = true ∧
     (rbTwo.tryWrite ⟨gs "e3", [], [], 0, 0⟩).1 = false ∧
     rbTwo.consumeStepEvents = [⟨gs "e1", [], [], 0, 0⟩, ⟨gs "e2", [], [], 0, 0⟩]) := by
  constructor
  · rintro rb ev ⟨hsl, _, hts, hocc, hvals, hready⟩
    unfold RB.tryWrite
    by_cases hc : rb.closed
    · simp [hc]
    · simp only [hc, if_false, Bool.false_eq_true, false_or]
      by_cases hfull : rb.cap ≤ rb.head - rb.tail
      · simp [hfull]
      · have hcap : 0 < rb.cap := Nat.succ_pos rb.mask
        have hlt : rb.head % rb.cap < rb.cap := Nat.mod_lt _ hcap
        have hnotready : rb.state.getD (rb.head % rb.cap) 0 ≠ slotReady := by
          intro hr
          obtain ⟨j, hjh, hjt, hjm⟩ := (hready _ hlt).mp hr
          have hmeq : j ≡ rb.head [MOD rb.cap] := by
            show j % rb.cap = rb.head % rb.cap
            exact hjm
          have hdvd : rb.cap ∣ rb.head - j :=
            (Nat.modEq_iff_dvd' (Nat.le_of_lt hjh)).mp hmeq
          have hpos : 0 < rb.head - j := Nat.sub_pos_of_lt hjh
          have := Nat.le_of_dvd hpos hdvd
          omega
        have hempty : rb.state.getD (rb.head % rb.cap) 0 = slotEmpty :=
          (hvals _ hlt).resolve_right hnotready
        have hempty2 : rb.state[rb.head % rb.cap]?.getD 0 = 0 := by
          simpa [List.getD, slotEmpty] using hempty
        simp [hfull, slotEmpty, hempty2]
  · refine ⟨by decide, by decide, by decide, by decide⟩

/-- Witness for C5: the general equivalence applied to the concrete full
capacity-2 buffer, whose well-formedness is decided. -/
theorem tryWrite_false_iff_closed_or_full_witness :
    rbTwo.wf ∧
    ((rbTwo.tryWrite ⟨gs "e3", [], [], 0, 0⟩).1 = false ↔
      (rbTwo.closed = true ∨ rbTwo.cap ≤ rbTwo.head - rbTwo.tail)) := by
  have hwf : rbTwo.wf := by
    refine ⟨rfl, rfl, by decide, by decide, ?_, ?_⟩ <;> decide
  exact ⟨hwf, tryWrite_false_iff_closed_or_full.1 rbTwo ⟨gs "e3", [], [], 0, 0⟩ hwf⟩

/-- Router holding the static routes GET /r and POST /r (C7 scenario). -/
def rTableC7 : RTable :=
  ((handle (handle RouterState.empty mGET (gs "/r") (some 1)).1
    mPOST (gs "/r") (some 2)).1).table

/-- C7: when a request misses the routes but the allow set computed for its
path is non-empty (and the serve and alternate-slash steps both declined),
the router answers 405 with that Allow header — except that an OPTIONS
request gets 200 with the Allow header and no body. Stated for a router
without a MethodNotAllowed override, which is the default. -/
theorem method_negotiation (cfg : DispatchCfg) (table : RTable)
    (ctx : RouteContext) (allow : GoStr)
    (hover : cfg.MethodNotAllowed = none)
    (hserve : serveInTable table ctx.method ctx.matchPath ctx.paramPath = none)
    (halt : tryAlternateSlashInTable cfg table ctx = none)
    (hallow : allowedMethodsInTable table ctx.matchPath = some allow) :
    dispatch cfg table [] [] ctx =
      if ctx.method = mOPTIONS then .optionsOk allow else .mna allow := by
  unfold dispatch tablePipeline handleMethodNotAllowedInTable
  simp [hserve, halt, hallow, respondMethodNotAllowed, hover]

/-- Witness for C7: with GET /r and POST /r registered, OPTIONS /r yields
200 with Allow: GET, HEAD, POST, OPTIONS and PATCH /r yields 405 with the
same Allow header. -/
theorem method_negotiation_witness :
    dispatch cfgDefault rTableC7 [] [] ⟨mOPTIONS, gs "/r", gs "/r"⟩ =
      .optionsOk (gs "GET, HEAD, POST, OPTIONS") ∧
    dispatch cfgDefault rTableC7 [] [] ⟨mPATCH, gs "/r", gs "/r"⟩ =
      .mna (gs "GET, HEAD, POST, OPTIONS") := by
  constructor
  · exact (method_negotiation cfgDefault rTableC7 ⟨mOPTIONS, gs "/r", gs "/r"⟩
      (gs "GET, HEAD, POST, OPTIONS") rfl (by decide) (by decide)
      (by decide)).trans (by decide)
  · exact (method_negotiation cfgDefault rTableC7 ⟨mPATCH, gs "/r", gs "/r"⟩
      (gs "GET, HEAD, POST, OPTIONS") rfl (by decide) (by decide)
      (by decide)).trans (by decide)

/-- C8: when the wrapped handler panics without ever setting a status, the
access-log middleware composes an event with status 500, writes it through
TryWrite (the buffer advances exactly as a direct TryWrite of that event),
and rethrows the panic value afterwards. -/
theorem accessLog_panic_status500_rethrow (rb : RB) (method path : GoStr)
    (acts : List HAction) (v : Nat)
    (hpanic : (runStatusWriter acts 0 0).2.2 = some v)
    (hstatus : (runStatusWriter acts 0 0).1 = 0) :
    (accessLog rb method path acts).1.Status = 500 ∧
    (accessLog rb method path acts).2.2.2 = some v ∧
    (accessLog rb method path acts).2.2.1 =
      (rb.tryWrite (accessLog rb method path acts).1).2 := by
  unfold accessLog
  simp [hpanic, hstatus, statusToUint16]

/-- Witness for C8: a handler that writes nothing and panics with value 7. -/
theorem accessLog_panic_status500_rethrow_witness :
    (runStatusWriter [HAction.panicNow 7] 0 0).2.2 = some 7 ∧
    (accessLog rbTwo (gs "GET") (gs "/x") [HAction.panicNow 7]).1.Status = 500 ∧
    (accessLog rbTwo (gs "GET") (gs "/x") [HAction.panicNow 7]).2.2.2 = some 7 := by
  have h := accessLog_panic_status500_rethrow rbTwo (gs "GET") (gs "/x")
    [HAction.panicNow 7] 7 (by decide) (by decide)
  exact ⟨by decide, h.1, h.2.1⟩

/-- C9: alternatePath yields no alternate for the empty and the root path,
so the trailing-slash alternation step of both routers never fires for a
request whose match path is "/" or empty — the root is neither redirected
nor served through the alternate-slash form, for every configuration. -/
theorem root_path_never_slash_alternated :
    alternatePath [] = none ∧ alternatePath (gs "/") = none ∧
    ∀ (cfg : DispatchCfg) (table : RTable) (ft : FTable) (ctx : RouteContext),
      ctx.matchPath = gs "/" ∨ ctx.matchPath = [] →
      tryAlternateSlashInTable cfg table ctx = none ∧
      fTryAlternateSlashInTable cfg ft ctx = none := by
  refine ⟨by decide, by decide, ?_⟩
  intro cfg table ft ctx h
  have hroot : alternatePath [47] = none := by decide
  have hnil : alternatePath ([] : GoStr) = none := by decide
  rcases h with h | h <;>
    · unfold tryAlternateSlashInTable fTryAlternateSlashInTable
      simp [h, hroot, hnil, gs]

/-- Witness for C9: the root-path request on the default configuration and
empty tables. -/
theorem root_path_never_slash_alternated_witness :
    tryAlternateSlashInTable cfgDefault RTable.empty
      ⟨mGET, gs "/", gs "/"⟩ = none ∧
    fTryAlternateSlashInTable cfgDefault (freezeTable RTable.empty)
      ⟨mGET, gs "/", gs "/"⟩ = none :=
  root_path_never_slash_alternated.2.2 cfgDefault RTable.empty
    (freezeTable RTable.empty) ⟨mGET, gs "/", gs "/"⟩ (Or.inl rfl)

/-- Router with IgnoreCase latched on and the single route GET /Ä — the
pattern bytes 47, 195, 132 are the UTF-8 encoding of "/Ä". -/
def rIgnoreCase : RouterState :=
  (handle { RouterState.empty with IgnoreCase := true }
    mGET [47, 195, 132] (some 1)).1

/-- C10: case folding is ASCII-only. lowerASCII is exactly the bytewise map
that sends 65..90 to 97..122 and fixes every other byte, so multi-byte
non-ASCII uppercase letters are untouched; consequently, with IgnoreCase
latched, the registered /Ä (bytes 195 132) and a request for /ä (bytes
195 164) do not match each other — the request falls through to 404 — while
/Ä itself still matches, and ASCII case folding does apply. -/
theorem lowerASCII_ascii_only :
    (∀ s : GoStr, lowerASCII s = s.map lowerByte) ∧
    (∀ c : Nat, (65 ≤ c ∧ c ≤ 90 → lowerByte c = c + 32) ∧
      (¬(65 ≤ c ∧ c ≤ 90) → lowerByte c = c)) ∧
    lowerASCII [47, 195, 132] = [47, 195, 132] ∧
    lowerASCII (gs "/AbC") = gs "/abc" ∧
    dispatch cfgDefault rIgnoreCase.table [] []
      ⟨mGET, lowerASCII [47, 195, 164], [47, 195, 164]⟩ = .notFound ∧
    dispatch cfgDefault rIgnoreCase.table [] []
      ⟨mGET, lowerASCII [47, 195, 132], [47, 195, 132]⟩ = .handlerRun 1 none := by
  refine ⟨?_, ?_, by decide, by decide, by decide, by decide⟩
  · exact lowerASCII_eq_map
  · intro c
    constructor
    · intro h; simp [lowerByte, h]
    · intro h; simp [lowerByte, h]

end Wand
